import Mathlib

/-!
Verification of the Forguncy project-analyzer core (src/electron/ipc/analyzer.ts)
against its specification.

JavaScript strings are modeled as `List Char` (`JStr`); JSON values as the
inductive `Json`.  The analyzer operates on values recovered by `JSON.parse`,
so every analyzer function is embedded at the `Json` level, with JavaScript
semantics (truthiness, `||` defaults, property access, `for (… of …)`
iteration, TypeErrors on misuse) made explicit.  A thrown exception is an
`Except.error`; recursive traversals take a fuel argument (the callers pass a
fuel derived from the entry's length, which always suffices, so fuel is only
a termination device).
-/

set_option maxHeartbeats 1000000

abbrev JStr := List Char

def jstr (s : String) : JStr := s.toList

/-- JS `String.prototype.split` with a one-character separator
(`"".split(c)` is `[""]`, as in JS). -/
def jsSplit (sep : Char) : JStr → List JStr
  | [] => [[]]
  | c :: rest =>
    if c = sep then [] :: jsSplit sep rest
    else
      match jsSplit sep rest with
      | [] => [[c]]
      | seg :: segs => (c :: seg) :: segs

/-- JS `hay.includes(needle)` for strings. -/
def jstrIncludes : JStr → JStr → Bool
  | [], needle => needle.isEmpty
  | hay@(_ :: rest), needle => needle.isPrefixOf hay || jstrIncludes rest needle

/-- JSON values (the results of `JSON.parse`).  Object fields keep their
textual order; duplicate keys are resolved at lookup time (last one wins,
as `JSON.parse` does). -/
inductive Json where
  | null
  | bool (b : Bool)
  | num (n : Int)
  | str (s : JStr)
  | arr (elems : List Json)
  | obj (fields : List (JStr × Json))

/-- JS truthiness: `null`, `false`, `0` and `""` are falsy. -/
def jsTruthy : Json → Bool
  | .null => false
  | .bool b => b
  | .num n => n != 0
  | .str s => !s.isEmpty
  | .arr _ => true
  | .obj _ => true

/-- JS truthiness of a possibly-undefined value (`none` = `undefined`). -/
def jsTruthyO : Option Json → Bool
  | none => false
  | some v => jsTruthy v

/-- Property access on `null` is a TypeError; this is the guard. -/
def jsIsNull : Json → Bool
  | .null => true
  | _ => false

mutual

/-- Structural size of a JSON value (used as a recursion measure and as a
sufficient fuel bound). -/
def jsize : Json → Nat
  | .null => 1
  | .bool _ => 1
  | .num _ => 1
  | .str _ => 1
  | .arr xs => 1 + jsizeList xs
  | .obj fs => 1 + jsizeFields fs

def jsizeList : List Json → Nat
  | [] => 0
  | x :: xs => 1 + jsize x + jsizeList xs

def jsizeFields : List (JStr × Json) → Nat
  | [] => 0
  | (_, v) :: fs => 1 + jsize v + jsizeFields fs

end

def lookupField : List (JStr × Json) → JStr → Option Json
  | [], _ => none
  | (k, v) :: fs, key =>
    match lookupField fs key with
    | some w => some w
    | none => if k = key then some v else none

/-- Property access `v[key]` on a non-`null` value: object lookup; every
other value yields `undefined` for the (non-numeric) keys the analyzer
reads.  Access on `null`/`undefined` is a TypeError and is modeled at the
call sites. -/
def jsGetT (v : Json) (key : String) : Option Json :=
  match v with
  | .obj fs => lookupField fs (jstr key)
  | _ => none

/-- JS `v || dflt` where `v` may be `undefined`. -/
def jsOrJ (v : Option Json) (dflt : Json) : Json :=
  match v with
  | some w => if jsTruthy w then w else dflt
  | none => dflt

/-- `(v || '')` followed by a string-method call: the string itself, or a
TypeError when the value is truthy but not a string. -/
def jsStrOrEmpty (v : Option Json) : Except Unit JStr :=
  match jsOrJ v (.str []) with
  | .str s => .ok s
  | _ => .error ()

/-- `(v || [])` followed by `.map`: empty when falsy, the elements of an
array, otherwise a TypeError (only arrays have `.map`). -/
def jsArrOrEmpty (v : Option Json) : Except Unit (List Json) :=
  match jsOrJ v (.arr []) with
  | .arr xs => .ok xs
  | _ => .error ()

/-- JS `for (const x of v)`: arrays iterate their elements, strings iterate
their characters (as one-character strings), anything else is a TypeError. -/
def jsForOf : Json → Except Unit (List Json)
  | .arr xs => .ok xs
  | .str s => .ok (s.map (fun c => Json.str [c]))
  | _ => .error ()

/-- JS `v.length`: defined for arrays and strings, `undefined` otherwise. -/
def jsLength : Json → Option Nat
  | .arr xs => some xs.length
  | .str s => some s.length
  | _ => none

def natToCharsAux : Nat → Nat → JStr → JStr
  | 0, _, acc => acc
  | f + 1, n, acc =>
    if n < 10 then Char.ofNat (48 + n) :: acc
    else natToCharsAux f (n / 10) (Char.ofNat (48 + n % 10) :: acc)

/-- Decimal digits of a natural number (the fuel `n + 1` always suffices). -/
def natToChars (n : Nat) : JStr := natToCharsAux (n + 1) n []

def intToChars (n : Int) : JStr :=
  if n < 0 then '-' :: natToChars (-n).toNat else natToChars n.toNat

mutual

/-- JS `String(v)` conversion. -/
def jsToString : Json → JStr
  | .null => jstr "null"
  | .bool true => jstr "true"
  | .bool false => jstr "false"
  | .num n => intToChars n
  | .str s => s
  | .arr xs => jsToStringElems xs
  | .obj _ => jstr "[object Object]"

/-- JS `Array.prototype.join(',')` behavior used by `String(array)`:
`null` elements render as the empty string. -/
def jsToStringElems : List Json → JStr
  | [] => []
  | [.null] => []
  | [x] => jsToString x
  | .null :: y :: xs => ',' :: jsToStringElems (y :: xs)
  | x :: y :: xs => jsToString x ++ ',' :: jsToStringElems (y :: xs)

end

/-- JS template-literal interpolation of a possibly-undefined value. -/
def jsToStringO : Option Json → JStr
  | none => jstr "undefined"
  | some v => jsToString v

/-- Node `path.basename(p, ext)`. -/
def pathBasename (p ext : JStr) : JStr :=
  let base := (jsSplit '/' p).getLastD []
  if base ≠ ext ∧ ext ≠ [] ∧ ext.isSuffixOf base then
    base.take (base.length - ext.length)
  else base

/-! ### Basic lemmas about `jsSplit` -/

theorem jsSplit_ne_nil (sep : Char) (s : JStr) : jsSplit sep s ≠ [] := by
  cases s with
  | nil => simp [jsSplit]
  | cons c rest =>
    simp only [jsSplit]
    by_cases h : c = sep
    · simp [h]
    · rw [if_neg h]
      cases hs : jsSplit sep rest <;> simp

theorem mem_jsSplit_not_sep (sep : Char) (s : JStr) :
    ∀ seg ∈ jsSplit sep s, sep ∉ seg := by
  induction s with
  | nil =>
    intro seg hseg
    simp [jsSplit] at hseg
    simp [hseg]
  | cons c rest ih =>
    intro seg hseg
    simp only [jsSplit] at hseg
    by_cases h : c = sep
    · rw [if_pos h] at hseg
      rcases List.mem_cons.mp hseg with h1 | h1
      · simp [h1]
      · exact ih seg h1
    · rw [if_neg h] at hseg
      cases hs : jsSplit sep rest with
      | nil => exact absurd hs (jsSplit_ne_nil sep rest)
      | cons seg0 segs =>
        rw [hs] at hseg
        rcases List.mem_cons.mp hseg with h1 | h1
        · subst h1
          intro hmem
          rcases List.mem_cons.mp hmem with h2 | h2
          · exact h h2.symm
          · exact ih seg0 (hs ▸ List.mem_cons_self seg0 segs) h2
        · exact ih seg (hs ▸ List.mem_cons_of_mem seg0 h1)

theorem mem_jsSplit_sub (sep : Char) (s : JStr) :
    ∀ seg ∈ jsSplit sep s, ∀ a ∈ seg, a ∈ s := by
  induction s with
  | nil =>
    intro seg hseg
    simp [jsSplit] at hseg
    simp [hseg]
  | cons c rest ih =>
    intro seg hseg a ha
    simp only [jsSplit] at hseg
    by_cases h : c = sep
    · rw [if_pos h] at hseg
      rcases List.mem_cons.mp hseg with h1 | h1
      · subst h1; simp at ha
      · exact List.mem_cons_of_mem c (ih seg h1 a ha)
    · rw [if_neg h] at hseg
      cases hs : jsSplit sep rest with
      | nil => exact absurd hs (jsSplit_ne_nil sep rest)
      | cons seg0 segs =>
        rw [hs] at hseg
        rcases List.mem_cons.mp hseg with h1 | h1
        · subst h1
          rcases List.mem_cons.mp ha with h2 | h2
          · exact h2 ▸ List.mem_cons_self a rest
          · exact List.mem_cons_of_mem c
              (ih seg0 (hs ▸ List.mem_cons_self seg0 segs) a h2)
        · exact List.mem_cons_of_mem c
            (ih seg (hs ▸ List.mem_cons_of_mem seg0 h1) a ha)

theorem jsSplit_of_not_mem (sep : Char) (s : JStr) (h : sep ∉ s) :
    jsSplit sep s = [s] := by
  induction s with
  | nil => simp [jsSplit]
  | cons c rest ih =>
    simp only [jsSplit]
    have hc : ¬ c = sep := fun hc => h (hc ▸ List.mem_cons_self c rest)
    rw [if_neg hc, ih (fun hm => h (List.mem_cons_of_mem c hm))]

theorem getLastD_mem {α : Type} (l : List α) (d : α) (h : l ≠ []) :
    l.getLastD d ∈ l := by
  induction l generalizing d with
  | nil => exact absurd rfl h
  | cons x xs ih =>
    cases hxs : xs with
    | nil => simp [List.getLastD]
    | cons y ys =>
      rw [List.getLastD_cons]
      exact List.mem_cons_of_mem x (hxs ▸ ih x (by simp [hxs]))

theorem headD_mem {α : Type} (l : List α) (d : α) (h : l ≠ []) :
    l.headD d ∈ l := by
  cases l with
  | nil => exact absurd rfl h
  | cons x xs => simp

/-! ### `extractColumnType` (analyzer.ts lines 191-196) and
`extractCommandTypeName` (lines 329-333): the "last dotted segment of the
part before the first comma" normalization. -/

/-- The last `.`-segment of the part of `s` before its first `,`
(`typeString.split(',')[0].split('.')` and then the last element). -/
def lastDotSegment (s : JStr) : JStr :=
  (jsSplit '.' ((jsSplit ',' s).headD [])).getLastD []

/-- Embedding of `extractColumnType`: `undefined`/empty input yields
`"Text"`, otherwise the last `.`-segment of the part before the first `,`
(falling back to `"Text"` when that segment is empty). -/
def extractColumnType (columnType : Option JStr) : JStr :=
  match columnType with
  | none => jstr "Text"
  | some s =>
    if s = [] then jstr "Text"
    else if lastDotSegment s = [] then jstr "Text" else lastDotSegment s

/-- Embedding of `extractCommandTypeName`: the same normalization with the
`"Unknown"` default. -/
def extractCommandTypeName (typeString : JStr) : JStr :=
  if typeString = [] then jstr "Unknown"
  else if lastDotSegment typeString = [] then jstr "Unknown"
  else lastDotSegment typeString

theorem extractColumnType_props (s : JStr) :
    extractColumnType (some s) ≠ [] ∧ ',' ∉ extractColumnType (some s) ∧
      '.' ∉ extractColumnType (some s) := by
  by_cases hs : s = []
  · subst hs; refine ⟨by decide, by decide, by decide⟩
  · simp only [extractColumnType, if_neg hs]
    by_cases hl : lastDotSegment s = []
    · rw [if_pos hl]
      refine ⟨by decide, by decide, by decide⟩
    · rw [if_neg hl]
      have hlm : lastDotSegment s ∈ jsSplit '.' ((jsSplit ',' s).headD []) :=
        getLastD_mem _ _ (jsSplit_ne_nil '.' _)
      have hfm : (jsSplit ',' s).headD [] ∈ jsSplit ',' s :=
        headD_mem _ _ (jsSplit_ne_nil ',' s)
      refine ⟨hl, ?_, mem_jsSplit_not_sep '.' _ _ hlm⟩
      intro hc
      exact mem_jsSplit_not_sep ',' s _ hfm
        (mem_jsSplit_sub '.' _ _ hlm ',' hc)

theorem lastDotSegment_fixed (t : JStr) (h2 : ',' ∉ t) (h3 : '.' ∉ t) :
    lastDotSegment t = t := by
  unfold lastDotSegment
  rw [jsSplit_of_not_mem ',' t h2]
  show (jsSplit '.' t).getLastD [] = t
  rw [jsSplit_of_not_mem '.' t h3]
  rfl

theorem extractColumnType_fixed (t : JStr) (h1 : t ≠ []) (h2 : ',' ∉ t)
    (h3 : '.' ∉ t) : extractColumnType (some t) = t := by
  simp only [extractColumnType, if_neg h1, lastDotSegment_fixed t h2 h3,
    if_neg h1]

/-- C4.  Type-name normalization: `extractColumnType` is idempotent on all
strings; `"Text"` normalizes to `"Text"`; a fully-qualified comma-terminated
name normalizes to its last dotted segment; absent or empty input defaults
to `"Text"`; the result is never empty. -/
theorem extractColumnType_normalization :
    (∀ s : JStr,
      extractColumnType (some (extractColumnType (some s))) =
        extractColumnType (some s))
    ∧ extractColumnType (some (jstr "Text")) = jstr "Text"
    ∧ extractColumnType (some (jstr "Foo.Bar.ColumnType.Number, Assembly=1.0"))
        = jstr "Number"
    ∧ extractColumnType none = jstr "Text"
    ∧ extractColumnType (some (jstr "")) = jstr "Text"
    ∧ ∀ s : Option JStr, extractColumnType s ≠ [] := by
  refine ⟨?_, by decide, by decide, by decide, by decide, ?_⟩
  · intro s
    obtain ⟨h1, h2, h3⟩ := extractColumnType_props s
    exact extractColumnType_fixed _ h1 h2 h3
  · intro s
    match s with
    | none => decide
    | some s => exact (extractColumnType_props s).1

/-! ### Envelope recovery: `extractJson` (analyzer.ts lines 84-129) -/

/-- Scanner state of the balanced-brace search: brace depth, whether the
position is inside a string literal, whether the next character is
escaped. -/
structure ScanState where
  bc : Int
  inStr : Bool
  esc : Bool
deriving DecidableEq

/-- One step of the scan loop; the branch order mirrors the source (escape
consumption, backslash inside a string, quote toggle, braces outside
strings). -/
def scanStep (st : ScanState) (c : Char) : ScanState :=
  if st.esc then { st with esc := false }
  else if c = '\\' ∧ st.inStr then { st with esc := true }
  else if c = '"' then { st with inStr := !st.inStr }
  else if ¬ st.inStr ∧ c = '{' then { st with bc := st.bc + 1 }
  else if ¬ st.inStr ∧ c = '}' then { st with bc := st.bc - 1 }
  else st

/-- The scan returns (the balanced span is complete) exactly when an
unescaped `}` outside a string brings the depth to zero. -/
def scanRet (st : ScanState) (c : Char) : Bool :=
  !st.esc && !st.inStr && (c == '}') && (st.bc == 1)

/-- The scan loop: returns the consumed span (inclusive of the closing
brace) as soon as the depth returns to zero, `none` when the input ends
first; `acc` is the reversed span consumed so far. -/
def scanGo : ScanState → JStr → JStr → Option JStr
  | _, [], _ => none
  | st, c :: rest, acc =>
    if scanRet st c then some (c :: acc).reverse
    else scanGo (scanStep st c) rest (c :: acc)

def bomChar : Char := '﻿'

/-- `content.replace(/^﻿/, '')`. -/
def stripBom : JStr → JStr
  | [] => []
  | c :: rest => if c = bomChar then rest else c :: rest

/-- The balanced-brace span located by `extractJson`, or the thrown error
message. -/
def extractJsonSpan (content : JStr) : Except JStr JStr :=
  match (stripBom content).dropWhile (fun c => c ≠ '{') with
  | [] => .error (jstr "No JSON object found")
  | s =>
    match scanGo ⟨0, false, false⟩ s [] with
    | some span => .ok span
    | none => .error (jstr "Invalid JSON structure - unbalanced braces")

/-! JSON text: a serializer for `Json` values and a model of `JSON.parse`.
The serializer backslash-escapes `"` and `\` inside string literals; the
parser accepts exactly those escapes (a backslash makes the next character
literal), which is the fragment of JSON string syntax the serializer
emits. -/

/-- Escape a string-literal body: `"` and `\` are backslash-escaped. -/
def escChars : JStr → JStr
  | [] => []
  | c :: rest =>
    if c = '"' ∨ c = '\\' then '\\' :: c :: escChars rest
    else c :: escChars rest

/-- A serialized string literal. -/
def serStr (s : JStr) : JStr := '"' :: escChars s ++ ['"']

mutual

/-- Serialized JSON text of a value (no insignificant whitespace). -/
def serialize : Json → JStr
  | .null => jstr "null"
  | .bool true => jstr "true"
  | .bool false => jstr "false"
  | .num n => intToChars n
  | .str s => serStr s
  | .arr xs => '[' :: serializeItems xs ++ [']']
  | .obj fs => '{' :: serializeFields fs ++ ['}']

def serializeItems : List Json → JStr
  | [] => []
  | [x] => serialize x
  | x :: y :: xs => serialize x ++ ',' :: serializeItems (y :: xs)

def serializeFields : List (JStr × Json) → JStr
  | [] => []
  | [(k, v)] => serStr k ++ ':' :: serialize v
  | (k, v) :: p :: fs =>
    serStr k ++ ':' :: serialize v ++ ',' :: serializeFields (p :: fs)

end

def digitsVal (ds : JStr) : Nat :=
  ds.foldl (fun a c => 10 * a + (c.toNat - 48)) 0

/-- Longest digit run at the head of `s`, as a number. -/
def parseNatJ (s : JStr) : Option (Nat × JStr) :=
  if s.takeWhile Char.isDigit = [] then none
  else some (digitsVal (s.takeWhile Char.isDigit), s.dropWhile Char.isDigit)

/-- String-literal body: consume until an unescaped `"`; a backslash makes
the following character literal. -/
def parseStrBody : JStr → JStr → Option (JStr × JStr)
  | [], _ => none
  | c :: rest, acc =>
    if c = '\\' then
      match rest with
      | [] => none
      | c2 :: rest2 => parseStrBody rest2 (c2 :: acc)
    else if c = '"' then some (acc.reverse, rest)
    else parseStrBody rest (c :: acc)

/-- Comma-separated array items followed by `]`, parsing each item with
`pv`; the fuel bounds the number of items. -/
def parseItemsWith (pv : JStr → Option (Json × JStr)) :
    Nat → JStr → Option (List Json × JStr)
  | 0, _ => none
  | g + 1, s =>
    match pv s with
    | none => none
    | some (v, r) =>
      match r with
      | ',' :: r2 =>
        match parseItemsWith pv g r2 with
        | none => none
        | some (vs, r3) => some (v :: vs, r3)
      | ']' :: r2 => some ([v], r2)
      | _ => none

/-- Comma-separated `"key":value` fields followed by `}`. -/
def parseFieldsWith (pv : JStr → Option (Json × JStr)) :
    Nat → JStr → Option (List (JStr × Json) × JStr)
  | 0, _ => none
  | g + 1, s =>
    match s with
    | '"' :: r =>
      match parseStrBody r [] with
      | none => none
      | some (k, r2) =>
        match r2 with
        | ':' :: r3 =>
          match pv r3 with
          | none => none
          | some (v, r4) =>
            match r4 with
            | ',' :: r5 =>
              match parseFieldsWith pv g r5 with
              | none => none
              | some (fs, r6) => some ((k, v) :: fs, r6)
            | '}' :: r5 => some ([(k, v)], r5)
            | _ => none
        | _ => none
    | _ => none

/-- One JSON value at the head of the input, returning the unconsumed
rest.  The fuel bounds the nesting depth. -/
def parseVal : Nat → JStr → Option (Json × JStr)
  | 0, _ => none
  | _ + 1, [] => none
  | f + 1, c :: r =>
    if c = 'n' then
      match r with
      | 'u' :: 'l' :: 'l' :: r2 => some (.null, r2)
      | _ => none
    else if c = 't' then
      match r with
      | 'r' :: 'u' :: 'e' :: r2 => some (.bool true, r2)
      | _ => none
    else if c = 'f' then
      match r with
      | 'a' :: 'l' :: 's' :: 'e' :: r2 => some (.bool false, r2)
      | _ => none
    else if c = '"' then
      match parseStrBody r [] with
      | some (cs, r2) => some (.str cs, r2)
      | none => none
    else if c = '[' then
      if r.headD ' ' = ']' then some (.arr [], r.tail)
      else
        match parseItemsWith (fun s2 => parseVal f s2) (r.length + 1) r with
        | some (vs, r2) => some (.arr vs, r2)
        | none => none
    else if c = '\x7b' then
      if r.headD ' ' = '\x7d' then some (.obj [], r.tail)
      else
        match parseFieldsWith (fun s2 => parseVal f s2) (r.length + 1) r with
        | some (fs, r2) => some (.obj fs, r2)
        | none => none
    else if c = '-' then
      match parseNatJ r with
      | some (n, r2) => some (.num (-(n : Int)), r2)
      | none => none
    else if c.isDigit then
      match parseNatJ (c :: r) with
      | some (n, r2) => some (.num (n : Int), r2)
      | none => none
    else none

/-- Model of `JSON.parse`: the whole text must be one JSON value (fuel
`length + 1` always suffices, since each nesting level consumes at least
one character). -/
def jsonParse (s : JStr) : Option Json :=
  match parseVal (s.length + 1) s with
  | some (v, []) => some v
  | _ => none

/-- Embedding of `extractJson`: strip one leading BOM, locate the first
`{`, scan forward for the balanced-brace span honoring string and escape
context, then parse the span; `Except.error` carries the thrown message. -/
def extractJson (content : JStr) : Except JStr Json :=
  match extractJsonSpan content with
  | .error e => .error e
  | .ok span =>
    match jsonParse span with
    | some v => .ok v
    | none => .error (jstr "SyntaxError")

/-! ### Scanner lemmas: scanning serialized JSON from depth at least one
never triggers the early return and leaves the scan state unchanged. -/

/-- No position inside `cs` triggers the scanner's return. -/
def noRet : ScanState → JStr → Bool
  | _, [] => true
  | st, c :: rest => !scanRet st c && noRet (scanStep st c) rest

theorem noRet_append (st : ScanState) (as bs : JStr) :
    noRet st (as ++ bs) = (noRet st as && noRet (as.foldl scanStep st) bs) := by
  induction as generalizing st with
  | nil => simp [noRet]
  | cons c cs ih => simp [noRet, ih, Bool.and_assoc]

theorem scanGo_append (st : ScanState) (cs rest acc : JStr)
    (h : noRet st cs = true) :
    scanGo st (cs ++ rest) acc =
      scanGo (cs.foldl scanStep st) rest (cs.reverse ++ acc) := by
  induction cs generalizing st acc with
  | nil => simp [scanGo]
  | cons c cs' ih =>
    simp only [noRet, Bool.and_eq_true, Bool.not_eq_true'] at h
    simp only [List.cons_append, scanGo, List.append_eq]
    rw [if_neg (by simp [h.1])]
    rw [ih _ _ h.2]
    simp

def plainChar (c : Char) : Prop := c ≠ '"' ∧ c ≠ '\\' ∧ c ≠ '{' ∧ c ≠ '}'

def plainCharB (c : Char) : Bool := c != '"' && c != '\\' && c != '{' && c != '}'

theorem plain_of_all (cs : JStr) (h : cs.all plainCharB = true) :
    ∀ c ∈ cs, plainChar c := by
  intro c hc
  have h2 := List.all_eq_true.mp h c hc
  simp only [plainCharB, Bool.and_eq_true, bne_iff_ne] at h2
  exact ⟨h2.1.1.1, h2.1.1.2, h2.1.2, h2.2⟩

theorem scanStep_plain {c : Char} (h : plainChar c) (bc : Int) :
    scanStep ⟨bc, false, false⟩ c = ⟨bc, false, false⟩ ∧
      scanRet ⟨bc, false, false⟩ c = false := by
  obtain ⟨h1, h2, h3, h4⟩ := h
  refine ⟨?_, ?_⟩
  · simp [scanStep, h1, h2, h3, h4]
  · simp [scanRet, h4]

theorem scan_cons_eq (st : ScanState) (c : Char) (cs : JStr) :
    noRet st (c :: cs) = (!scanRet st c && noRet (scanStep st c) cs) := rfl

theorem scan_append_stable {st : ScanState} {as bs : JStr}
    (ha1 : noRet st as = true) (ha2 : as.foldl scanStep st = st)
    (hb1 : noRet st bs = true) (hb2 : bs.foldl scanStep st = st) :
    noRet st (as ++ bs) = true ∧ (as ++ bs).foldl scanStep st = st := by
  refine ⟨?_, ?_⟩
  · rw [noRet_append, ha2, ha1, hb1]
    rfl
  · rw [List.foldl_append, ha2, hb2]

theorem scan_single_stable {st : ScanState} {c : Char}
    (h1 : scanStep st c = st) (h2 : scanRet st c = false) :
    noRet st [c] = true ∧ [c].foldl scanStep st = st := by
  refine ⟨?_, ?_⟩
  · simp [noRet, h2]
  · simp [h1]

theorem scan_plain_list (cs : JStr) (h : ∀ c ∈ cs, plainChar c) (bc : Int) :
    noRet ⟨bc, false, false⟩ cs = true ∧
      cs.foldl scanStep ⟨bc, false, false⟩ = ⟨bc, false, false⟩ := by
  induction cs with
  | nil => simp [noRet]
  | cons c cs' ih =>
    obtain ⟨hs, hr⟩ := scanStep_plain (h c (List.mem_cons_self c cs')) bc
    obtain ⟨ih1, ih2⟩ := ih (fun c' hc' => h c' (List.mem_cons_of_mem c hc'))
    refine ⟨?_, ?_⟩
    · simp [noRet, hr, hs, ih1]
    · simp [List.foldl_cons, hs, ih2]

theorem scan_escChars (s : JStr) (bc : Int) :
    noRet ⟨bc, true, false⟩ (escChars s) = true ∧
      (escChars s).foldl scanStep ⟨bc, true, false⟩ = ⟨bc, true, false⟩ := by
  induction s with
  | nil => simp [noRet, escChars]
  | cons c s' ih =>
    by_cases hc : c = '"' ∨ c = '\\'
    · have h1 : scanStep ⟨bc, true, false⟩ '\\' = ⟨bc, true, true⟩ := by
        simp [scanStep]
      have h2 : scanRet ⟨bc, true, false⟩ '\\' = false := by simp [scanRet]
      have h3 : scanStep ⟨bc, true, true⟩ c = ⟨bc, true, false⟩ := by
        simp [scanStep]
      have h4 : scanRet ⟨bc, true, true⟩ c = false := by simp [scanRet]
      simp [escChars, if_pos hc, noRet, h1, h2, h3, h4, ih]
    · push_neg at hc
      have h1 : scanStep ⟨bc, true, false⟩ c = ⟨bc, true, false⟩ := by
        simp [scanStep, hc.1, hc.2]
      have h2 : scanRet ⟨bc, true, false⟩ c = false := by simp [scanRet]
      simp [escChars, hc, noRet, h1, h2, ih]

theorem scan_serStr (s : JStr) (bc : Int) :
    noRet ⟨bc, false, false⟩ (serStr s) = true ∧
      (serStr s).foldl scanStep ⟨bc, false, false⟩ = ⟨bc, false, false⟩ := by
  have hq1 : scanStep ⟨bc, false, false⟩ '"' = ⟨bc, true, false⟩ := by
    simp [scanStep]
  have hr1 : scanRet ⟨bc, false, false⟩ '"' = false := by simp [scanRet]
  have hq2 : scanStep ⟨bc, true, false⟩ '"' = ⟨bc, false, false⟩ := by
    simp [scanStep]
  have hr2 : scanRet ⟨bc, true, false⟩ '"' = false := by simp [scanRet]
  obtain ⟨he1, he2⟩ := scan_escChars s bc
  refine ⟨?_, ?_⟩
  · simp [serStr, noRet, hr1, hq1, noRet_append, he1, he2, hr2]
  · simp [serStr, List.foldl_cons, hq1, List.foldl_append, he2, hq2]

theorem digitChar_plain (d : Nat) (hd : d ≤ 9) : plainChar (Char.ofNat (48 + d)) := by
  interval_cases d <;> exact ⟨by decide, by decide, by decide, by decide⟩

theorem natToCharsAux_mem (f : Nat) : ∀ n acc c, c ∈ natToCharsAux f n acc →
    c ∈ acc ∨ ∃ d, d ≤ 9 ∧ c = Char.ofNat (48 + d) := by
  induction f with
  | zero => intro n acc c hc; exact Or.inl hc
  | succ f ih =>
    intro n acc c hc
    simp only [natToCharsAux] at hc
    by_cases hn : n < 10
    · rw [if_pos hn] at hc
      rcases List.mem_cons.mp hc with h | h
      · exact Or.inr ⟨n, by omega, h⟩
      · exact Or.inl h
    · rw [if_neg hn] at hc
      rcases ih (n / 10) _ c hc with h | h
      · rcases List.mem_cons.mp h with h2 | h2
        · exact Or.inr ⟨n % 10, by omega, h2⟩
        · exact Or.inl h2
      · exact Or.inr h

theorem natToChars_plain (n : Nat) : ∀ c ∈ natToChars n, plainChar c := by
  intro c hc
  rcases natToCharsAux_mem (n + 1) n [] c hc with h | ⟨d, hd, hc2⟩
  · simp at h
  · exact hc2 ▸ digitChar_plain d hd

theorem intToChars_plain (n : Int) : ∀ c ∈ intToChars n, plainChar c := by
  intro c hc
  unfold intToChars at hc
  by_cases hn : n < 0
  · rw [if_pos hn] at hc
    rcases List.mem_cons.mp hc with h | h
    · exact h ▸ ⟨by decide, by decide, by decide, by decide⟩
    · exact natToChars_plain _ c h
  · rw [if_neg hn] at hc
    exact natToChars_plain _ c hc

mutual

theorem scan_serialize (x : Json) (bc : Int) (hbc : 1 ≤ bc) :
    noRet ⟨bc, false, false⟩ (serialize x) = true ∧
      (serialize x).foldl scanStep ⟨bc, false, false⟩ = ⟨bc, false, false⟩ := by
  cases x with
  | null => exact scan_plain_list _ (plain_of_all _ (by decide)) bc
  | bool b =>
    cases b with
    | false => exact scan_plain_list _ (plain_of_all _ (by decide)) bc
    | true => exact scan_plain_list _ (plain_of_all _ (by decide)) bc
  | num n => exact scan_plain_list _ (intToChars_plain n) bc
  | str s => exact scan_serStr s bc
  | arr xs =>
    obtain ⟨hi1, hi2⟩ := scan_serializeItems xs bc hbc
    obtain ⟨hl1, hl2⟩ := scanStep_plain
      (show plainChar '[' from ⟨by decide, by decide, by decide, by decide⟩) bc
    obtain ⟨hr1, hr2⟩ := scanStep_plain
      (show plainChar ']' from ⟨by decide, by decide, by decide, by decide⟩) bc
    show noRet ⟨bc, false, false⟩ ('[' :: (serializeItems xs ++ [']'])) = true ∧
      ('[' :: (serializeItems xs ++ [']'])).foldl scanStep
        ⟨bc, false, false⟩ = ⟨bc, false, false⟩
    obtain ⟨hrest1, hrest2⟩ := scan_append_stable hi1 hi2
      (scan_single_stable hr1 hr2).1 (scan_single_stable hr1 hr2).2
    refine ⟨?_, ?_⟩
    · rw [scan_cons_eq, hl1, hl2, hrest1]
      rfl
    · rw [List.foldl_cons, hl1, hrest2]
  | obj fs =>
    obtain ⟨hf1, hf2⟩ := scan_serializeFields fs (bc + 1) (by omega)
    have hob : scanStep ⟨bc, false, false⟩ '{' = ⟨bc + 1, false, false⟩ := by
      simp [scanStep]
    have hobr : scanRet ⟨bc, false, false⟩ '{' = false := by simp [scanRet]
    have hcb : scanStep ⟨bc + 1, false, false⟩ '}' = ⟨bc, false, false⟩ := by
      simp [scanStep]
    have hcbr : scanRet ⟨bc + 1, false, false⟩ '}' = false := by
      simp only [scanRet, Bool.not_false, Bool.true_and, Bool.and_eq_false_imp]
      intro h
      simp only [beq_eq_false_iff_ne, ne_eq]
      omega
    show noRet ⟨bc, false, false⟩ ('{' :: (serializeFields fs ++ ['}'])) = true ∧
      ('{' :: (serializeFields fs ++ ['}'])).foldl scanStep
        ⟨bc, false, false⟩ = ⟨bc, false, false⟩
    refine ⟨?_, ?_⟩
    · rw [scan_cons_eq, hob, hobr, noRet_append, hf1, hf2]
      simp [noRet, hcbr]
    · rw [List.foldl_cons, hob, List.foldl_append, hf2]
      simp [hcb]
termination_by jsize x
decreasing_by
  all_goals simp [jsize, jsizeList, jsizeFields]
  all_goals omega

theorem scan_serializeItems (xs : List Json) (bc : Int) (hbc : 1 ≤ bc) :
    noRet ⟨bc, false, false⟩ (serializeItems xs) = true ∧
      (serializeItems xs).foldl scanStep ⟨bc, false, false⟩ =
        ⟨bc, false, false⟩ := by
  cases xs with
  | nil => simp [serializeItems, noRet]
  | cons x xs' =>
    cases xs' with
    | nil => simpa [serializeItems] using scan_serialize x bc hbc
    | cons y ys =>
      obtain ⟨h1, h2⟩ := scan_serialize x bc hbc
      obtain ⟨h3, h4⟩ := scan_serializeItems (y :: ys) bc hbc
      obtain ⟨hc1, hc2⟩ := scanStep_plain
        (show plainChar ',' from ⟨by decide, by decide, by decide, by decide⟩) bc
      show noRet ⟨bc, false, false⟩
          (serialize x ++ (',' :: serializeItems (y :: ys))) = true ∧ _
      exact scan_append_stable h1 h2
        (scan_append_stable (scan_single_stable hc1 hc2).1
          (scan_single_stable hc1 hc2).2 h3 h4).1
        (scan_append_stable (scan_single_stable hc1 hc2).1
          (scan_single_stable hc1 hc2).2 h3 h4).2
termination_by jsizeList xs
decreasing_by
  all_goals simp [jsize, jsizeList, jsizeFields]
  all_goals omega

theorem scan_serializeFields (fs : List (JStr × Json)) (bc : Int)
    (hbc : 1 ≤ bc) :
    noRet ⟨bc, false, false⟩ (serializeFields fs) = true ∧
      (serializeFields fs).foldl scanStep ⟨bc, false, false⟩ =
        ⟨bc, false, false⟩ := by
  cases fs with
  | nil => simp [serializeFields, noRet]
  | cons kv fs' =>
    obtain ⟨k, v⟩ := kv
    obtain ⟨hk1, hk2⟩ := scan_serStr k bc
    obtain ⟨hv1, hv2⟩ := scan_serialize v bc hbc
    obtain ⟨hc1, hc2⟩ := scanStep_plain
      (show plainChar ':' from ⟨by decide, by decide, by decide, by decide⟩) bc
    have hkcv := scan_append_stable hk1 hk2
      (scan_append_stable (scan_single_stable hc1 hc2).1
        (scan_single_stable hc1 hc2).2 hv1 hv2).1
      (scan_append_stable (scan_single_stable hc1 hc2).1
        (scan_single_stable hc1 hc2).2 hv1 hv2).2
    cases fs' with
    | nil =>
      show noRet ⟨bc, false, false⟩
          (serStr k ++ (':' :: serialize v)) = true ∧ _
      exact hkcv
    | cons p ps =>
      obtain ⟨h3, h4⟩ := scan_serializeFields (p :: ps) bc hbc
      obtain ⟨hm1, hm2⟩ := scanStep_plain
        (show plainChar ',' from ⟨by decide, by decide, by decide, by decide⟩) bc
      show noRet ⟨bc, false, false⟩
          ((serStr k ++ (':' :: serialize v)) ++
            (',' :: serializeFields (p :: ps))) = true ∧ _
      exact scan_append_stable hkcv.1 hkcv.2
        (scan_append_stable (scan_single_stable hm1 hm2).1
          (scan_single_stable hm1 hm2).2 h3 h4).1
        (scan_append_stable (scan_single_stable hm1 hm2).1
          (scan_single_stable hm1 hm2).2 h3 h4).2
termination_by jsizeFields fs
decreasing_by
  all_goals simp [jsize, jsizeList, jsizeFields]
  all_goals omega

end

/-! ### Parser roundtrip: `jsonParse (serialize x) = some x` -/

def noDigitHeadB : JStr → Bool
  | [] => true
  | c :: _ => !c.isDigit

theorem natToCharsAux_step (f n : Nat) (acc : JStr) (h : ¬ n < 10) :
    natToCharsAux (f + 1) n acc =
      natToCharsAux f (n / 10) (Char.ofNat (48 + n % 10) :: acc) := by
  simp only [natToCharsAux, if_neg h]

theorem natToCharsAux_shift : ∀ f n acc, n ≤ f →
    natToCharsAux (f + 1) n acc = natToCharsAux (n + 1) n [] ++ acc := by
  intro f
  induction f using Nat.strong_induction_on with
  | _ f ih =>
    intro n acc hn
    by_cases h10 : n < 10
    · simp only [natToCharsAux, if_pos h10]
      rfl
    · rw [natToCharsAux_step f n acc h10, natToCharsAux_step n n [] h10]
      obtain ⟨f', rfl⟩ : ∃ f', f = f' + 1 := ⟨f - 1, by omega⟩
      obtain ⟨m, rfl⟩ : ∃ m, n = m + 1 := ⟨n - 1, by omega⟩
      rw [ih f' (by omega) ((m + 1) / 10) _ (by omega)]
      rw [ih m (by omega) ((m + 1) / 10) _ (by omega)]
      simp

theorem natToChars_lt10 (n : Nat) (h : n < 10) :
    natToChars n = [Char.ofNat (48 + n)] := by
  unfold natToChars natToCharsAux
  rw [if_pos h]

theorem natToChars_ge10 (n : Nat) (h : 10 ≤ n) :
    natToChars n = natToChars (n / 10) ++ [Char.ofNat (48 + n % 10)] := by
  show natToCharsAux (n + 1) n [] = _
  rw [natToCharsAux_step n n [] (by omega)]
  obtain ⟨m, rfl⟩ : ∃ m, n = m + 1 := ⟨n - 1, by omega⟩
  rw [natToCharsAux_shift m ((m + 1) / 10) _ (by omega)]
  rfl

theorem digitChar_isDigit (d : Nat) (hd : d ≤ 9) :
    (Char.ofNat (48 + d)).isDigit = true := by
  interval_cases d <;> decide

theorem digitChar_toNat (d : Nat) (hd : d ≤ 9) :
    (Char.ofNat (48 + d)).toNat = 48 + d := by
  interval_cases d <;> decide

theorem natToChars_digits (n : Nat) : ∀ c ∈ natToChars n, c.isDigit = true := by
  intro c hc
  rcases natToCharsAux_mem (n + 1) n [] c hc with h | ⟨d, hd, hc2⟩
  · simp at h
  · exact hc2 ▸ digitChar_isDigit d hd

theorem natToChars_ne_nil (n : Nat) : natToChars n ≠ [] := by
  by_cases h : n < 10
  · rw [natToChars_lt10 n h]; simp
  · rw [natToChars_ge10 n (by omega)]; simp

theorem digitsVal_append_digit (ds : JStr) (c : Char) :
    digitsVal (ds ++ [c]) = 10 * digitsVal ds + (c.toNat - 48) := by
  unfold digitsVal
  rw [List.foldl_append]
  rfl

theorem digitsVal_natToChars (n : Nat) : digitsVal (natToChars n) = n := by
  induction n using Nat.strong_induction_on with
  | _ n ih =>
    by_cases h : n < 10
    · rw [natToChars_lt10 n h]
      show 10 * 0 + ((Char.ofNat (48 + n)).toNat - 48) = n
      rw [digitChar_toNat n (by omega)]
      omega
    · rw [natToChars_ge10 n (by omega), digitsVal_append_digit,
        ih (n / 10) (by omega), digitChar_toNat (n % 10) (by omega)]
      omega

theorem takeWhile_append_all {p : Char → Bool} (as bs : JStr)
    (h : ∀ c ∈ as, p c = true) :
    (as ++ bs).takeWhile p = as ++ bs.takeWhile p := by
  induction as with
  | nil => rfl
  | cons c cs ih =>
    simp only [List.cons_append, List.takeWhile_cons,
      h c (List.mem_cons_self c cs)]
    simp [ih (fun c' hc' => h c' (List.mem_cons_of_mem c hc'))]

theorem dropWhile_append_all {p : Char → Bool} (as bs : JStr)
    (h : ∀ c ∈ as, p c = true) :
    (as ++ bs).dropWhile p = bs.dropWhile p := by
  induction as with
  | nil => rfl
  | cons c cs ih =>
    simp only [List.cons_append, List.dropWhile_cons,
      h c (List.mem_cons_self c cs)]
    exact ih (fun c' hc' => h c' (List.mem_cons_of_mem c hc'))

theorem takeWhile_isDigit_nil (rest : JStr) (h : noDigitHeadB rest = true) :
    rest.takeWhile Char.isDigit = [] := by
  cases rest with
  | nil => rfl
  | cons c cs =>
    simp only [noDigitHeadB, Bool.not_eq_true'] at h
    simp [List.takeWhile_cons, h]

theorem dropWhile_isDigit_self (rest : JStr) (h : noDigitHeadB rest = true) :
    rest.dropWhile Char.isDigit = rest := by
  cases rest with
  | nil => rfl
  | cons c cs =>
    simp only [noDigitHeadB, Bool.not_eq_true'] at h
    simp [List.dropWhile_cons, h]

theorem parseNatJ_natToChars (n : Nat) (rest : JStr)
    (h : noDigitHeadB rest = true) :
    parseNatJ (natToChars n ++ rest) = some (n, rest) := by
  unfold parseNatJ
  rw [takeWhile_append_all _ _ (natToChars_digits n),
    takeWhile_isDigit_nil rest h, List.append_nil,
    dropWhile_append_all _ _ (natToChars_digits n),
    dropWhile_isDigit_self rest h,
    if_neg (natToChars_ne_nil n), digitsVal_natToChars]

theorem parseStrBody_escChars (s : JStr) : ∀ acc rest,
    parseStrBody (escChars s ++ '"' :: rest) acc =
      some (acc.reverse ++ s, rest) := by
  induction s with
  | nil =>
    intro acc rest
    show parseStrBody ('"' :: rest) acc = _
    unfold parseStrBody
    rw [if_neg (by decide), if_pos rfl]
    simp
  | cons c s' ih =>
    intro acc rest
    by_cases hc : c = '"' ∨ c = '\\'
    · simp only [escChars, if_pos hc, List.cons_append]
      unfold parseStrBody
      rw [if_pos rfl]
      show parseStrBody (escChars s' ++ '"' :: rest) (c :: acc) = _
      rw [ih (c :: acc) rest]
      simp
    · simp only [escChars, if_neg hc, List.cons_append]
      push_neg at hc
      unfold parseStrBody
      rw [if_neg hc.2, if_neg hc.1]
      rw [ih (c :: acc) rest]
      simp

theorem jsize_pos (x : Json) : 1 ≤ jsize x := by
  cases x <;> simp [jsize]

theorem jsize_lt_of_mem {x : Json} {xs : List Json} (h : x ∈ xs) :
    jsize x < jsizeList xs := by
  induction xs with
  | nil => simp at h
  | cons y ys ih =>
    rcases List.mem_cons.mp h with h1 | h1
    · subst h1; simp [jsizeList]; omega
    · have := ih h1; simp [jsizeList]; omega

theorem jsize_lt_of_mem_fields {k : JStr} {v : Json} {fs : List (JStr × Json)}
    (h : (k, v) ∈ fs) : jsize v < jsizeFields fs := by
  induction fs with
  | nil => simp at h
  | cons p ps ih =>
    obtain ⟨a, b⟩ := p
    rcases List.mem_cons.mp h with h1 | h1
    · rw [show b = v from congrArg Prod.snd h1.symm]
      simp [jsizeFields]
      omega
    · have := ih h1; simp [jsizeFields]; omega

theorem isDigit_ne_rsq {c : Char} (h : c.isDigit = true) : c ≠ ']' := by
  intro hc; subst hc; exact absurd h (by decide)

theorem isDigit_excl {c : Char} (h : c.isDigit = true) :
    c ≠ 'n' ∧ c ≠ 't' ∧ c ≠ 'f' ∧ c ≠ '"' ∧ c ≠ '[' ∧ c ≠ '{' ∧ c ≠ '-' := by
  refine ⟨?_, ?_, ?_, ?_, ?_, ?_, ?_⟩ <;>
    (intro hc; subst hc; exact absurd h (by decide))

theorem serialize_head_ne_rsq (x : Json) :
    ∃ c cs, serialize x = c :: cs ∧ c ≠ ']' := by
  cases x with
  | null => exact ⟨'n', jstr "ull", rfl, by decide⟩
  | bool b =>
    cases b with
    | false => exact ⟨'f', jstr "alse", rfl, by decide⟩
    | true => exact ⟨'t', jstr "rue", rfl, by decide⟩
  | num n =>
    by_cases hn : n < 0
    · refine ⟨'-', natToChars (-n).toNat, ?_, by decide⟩
      simp [serialize, intToChars, if_pos hn]
    · obtain ⟨c, cs, hcs⟩ := List.exists_cons_of_ne_nil (natToChars_ne_nil n.toNat)
      refine ⟨c, cs, ?_, isDigit_ne_rsq
        (natToChars_digits n.toNat c (hcs ▸ List.mem_cons_self c cs))⟩
      simp [serialize, intToChars, if_neg hn, hcs]
  | str s => exact ⟨'"', escChars s ++ ['"'], rfl, by decide⟩
  | arr xs => exact ⟨'[', serializeItems xs ++ [']'], rfl, by decide⟩
  | obj fs => exact ⟨'{', serializeFields fs ++ ['}'], rfl, by decide⟩

theorem serialize_ne_nil (x : Json) : serialize x ≠ [] := by
  obtain ⟨c, cs, h, _⟩ := serialize_head_ne_rsq x
  simp [h]

theorem serializeItems_cons (x : Json) (xs : List Json) :
    ∃ t, serializeItems (x :: xs) = serialize x ++ t := by
  cases xs with
  | nil => exact ⟨[], by simp [serializeItems]⟩
  | cons y ys => exact ⟨',' :: serializeItems (y :: ys), rfl⟩

theorem serializeFields_head (k : JStr) (v : Json) (fs : List (JStr × Json)) :
    ∃ t, serializeFields ((k, v) :: fs) = '"' :: t := by
  cases fs with
  | nil =>
    exact ⟨escChars k ++ '"' :: (':' :: serialize v),
      by simp [serializeFields, serStr]⟩
  | cons p ps =>
    exact ⟨escChars k ++ '"' :: (':' ::
        (serialize v ++ ',' :: serializeFields (p :: ps))),
      by simp [serializeFields, serStr]⟩

theorem length_serializeItems (xs : List Json) :
    xs.length ≤ (serializeItems xs).length := by
  induction xs with
  | nil => simp [serializeItems]
  | cons x xs' ih =>
    have h1 := List.length_pos.mpr (serialize_ne_nil x)
    cases xs' with
    | nil => simpa [serializeItems] using h1
    | cons y ys =>
      simp only [serializeItems, List.length_append, List.length_cons] at *
      omega

theorem length_serializeFields (fs : List (JStr × Json)) :
    fs.length ≤ (serializeFields fs).length := by
  induction fs with
  | nil => simp [serializeFields]
  | cons kv fs' ih =>
    obtain ⟨k, v⟩ := kv
    have h1 := List.length_pos.mpr (serialize_ne_nil v)
    cases fs' with
    | nil =>
      show 1 ≤ (serStr k ++ ':' :: serialize v).length
      simp only [serStr, List.length_append, List.length_cons]
      omega
    | cons p ps =>
      show ((k, v) :: p :: ps).length ≤
        (serStr k ++ ':' :: serialize v ++ ',' :: serializeFields (p :: ps)).length
      simp only [serStr, List.length_append, List.length_cons] at *
      omega

theorem noDigitHeadB_cons (c : Char) (l : JStr) :
    noDigitHeadB (c :: l) = !c.isDigit := rfl

theorem noDigitHeadB_of {c : Char} (l : JStr) (h : c.isDigit = false) :
    noDigitHeadB (c :: l) = true := by
  rw [noDigitHeadB_cons, h]
  rfl

theorem parseItemsWith_ser (pv : JStr → Option (Json × JStr)) :
    ∀ (xs : List Json) (g : Nat) (rest : JStr), xs ≠ [] → xs.length ≤ g →
    (∀ x ∈ xs, ∀ r2 : JStr, noDigitHeadB r2 = true →
      pv (serialize x ++ r2) = some (x, r2)) →
    parseItemsWith pv g (serializeItems xs ++ ']' :: rest) = some (xs, rest) := by
  intro xs
  induction xs with
  | nil => intro g rest h; exact absurd rfl h
  | cons x xs' ih =>
    intro g rest _ hg hpv
    obtain ⟨g', rfl⟩ : ∃ g', g = g' + 1 :=
      ⟨g - 1, by simp only [List.length_cons] at hg; omega⟩
    cases xs' with
    | nil =>
      show parseItemsWith pv (g' + 1) (serialize x ++ ']' :: rest) = _
      unfold parseItemsWith
      rw [hpv x (List.mem_cons_self x []) (']' :: rest)
        (noDigitHeadB_of _ (by decide))]
      rfl
    | cons y ys =>
      show parseItemsWith pv (g' + 1)
          ((serialize x ++ ',' :: serializeItems (y :: ys)) ++ ']' :: rest) = _
      have hih := ih g' rest (by simp)
        (by simp only [List.length_cons] at hg ⊢; omega)
        (fun z hz => hpv z (List.mem_cons_of_mem x hz))
      rw [List.append_assoc, List.cons_append]
      unfold parseItemsWith
      rw [hpv x (List.mem_cons_self _ _) _ (noDigitHeadB_of _ (by decide))]
      simp only [hih]

theorem parseFieldsWith_ser (pv : JStr → Option (Json × JStr)) :
    ∀ (fs : List (JStr × Json)) (g : Nat) (rest : JStr), fs ≠ [] →
    fs.length ≤ g →
    (∀ kv ∈ fs, ∀ r2 : JStr, noDigitHeadB r2 = true →
      pv (serialize kv.2 ++ r2) = some (kv.2, r2)) →
    parseFieldsWith pv g (serializeFields fs ++ '}' :: rest) =
      some (fs, rest) := by
  intro fs
  induction fs with
  | nil => intro g rest h; exact absurd rfl h
  | cons kv fs' ih =>
    obtain ⟨k, v⟩ := kv
    intro g rest _ hg hpv
    obtain ⟨g', rfl⟩ : ∃ g', g = g' + 1 :=
      ⟨g - 1, by simp only [List.length_cons] at hg; omega⟩
    cases fs' with
    | nil =>
      show parseFieldsWith pv (g' + 1)
          ((serStr k ++ ':' :: serialize v) ++ '}' :: rest) = _
      rw [show (serStr k ++ ':' :: serialize v) ++ '}' :: rest =
          '"' :: (escChars k ++ '"' :: (':' :: (serialize v ++ '}' :: rest)))
        by simp [serStr]]
      have h1 := parseStrBody_escChars k []
        (':' :: (serialize v ++ '}' :: rest))
      have h2 : pv (serialize v ++ '}' :: rest) = some (v, '}' :: rest) :=
        hpv (k, v) (List.mem_cons_self _ _) ('}' :: rest)
          (noDigitHeadB_of _ (by decide))
      simp only [parseFieldsWith, h1, List.reverse_nil, List.nil_append, h2]
    | cons p ps =>
      show parseFieldsWith pv (g' + 1)
          ((serStr k ++ ':' :: serialize v ++ ',' :: serializeFields (p :: ps))
            ++ '}' :: rest) = _
      rw [show (serStr k ++ ':' :: serialize v ++
            ',' :: serializeFields (p :: ps)) ++ '}' :: rest =
          '"' :: (escChars k ++ '"' :: (':' :: (serialize v ++
            ',' :: (serializeFields (p :: ps) ++ '}' :: rest))))
        by simp [serStr]]
      have h1 := parseStrBody_escChars k []
        (':' :: (serialize v ++ ',' :: (serializeFields (p :: ps) ++ '}' :: rest)))
      have h2 : pv (serialize v ++
            ',' :: (serializeFields (p :: ps) ++ '}' :: rest)) =
          some (v, ',' :: (serializeFields (p :: ps) ++ '}' :: rest)) :=
        hpv (k, v) (List.mem_cons_self _ _)
          (',' :: (serializeFields (p :: ps) ++ '}' :: rest))
          (noDigitHeadB_of _ (by decide))
      have hih := ih g' rest (by simp)
        (by simp only [List.length_cons] at hg ⊢; omega)
        (fun z hz => hpv z (List.mem_cons_of_mem _ hz))
      simp only [parseFieldsWith, h1, List.reverse_nil, List.nil_append, h2,
        hih]

theorem parseVal_serialize : ∀ (f : Nat) (x : Json), jsize x ≤ f →
    ∀ rest : JStr, noDigitHeadB rest = true →
    parseVal f (serialize x ++ rest) = some (x, rest) := by
  intro f
  induction f with
  | zero => intro x hx; have := jsize_pos x; omega
  | succ f ih =>
    intro x hx rest hrest
    cases x with
    | null =>
      show parseVal (f + 1) ('n' :: 'u' :: 'l' :: 'l' :: rest) = _
      unfold parseVal
      rw [if_pos rfl]
      rfl
    | bool b =>
      cases b with
      | true =>
        show parseVal (f + 1) ('t' :: 'r' :: 'u' :: 'e' :: rest) = _
        unfold parseVal
        rw [if_neg (by decide), if_pos rfl]
        rfl
      | false =>
        show parseVal (f + 1) ('f' :: 'a' :: 'l' :: 's' :: 'e' :: rest) = _
        unfold parseVal
        rw [if_neg (by decide), if_neg (by decide), if_pos rfl]
        rfl
    | str s =>
      rw [show serialize (.str s) ++ rest = '"' :: (escChars s ++ '"' :: rest)
        by simp [serialize, serStr]]
      unfold parseVal
      rw [if_neg (by decide), if_neg (by decide), if_neg (by decide),
        if_pos rfl, parseStrBody_escChars s [] rest]
      simp
    | num n =>
      by_cases hn : n < 0
      · rw [show serialize (.num n) ++ rest =
            '-' :: (natToChars (-n).toNat ++ rest) by
          simp [serialize, intToChars, if_pos hn]]
        unfold parseVal
        rw [if_neg (by decide), if_neg (by decide), if_neg (by decide),
          if_neg (by decide), if_neg (by decide), if_neg (by decide),
          if_pos rfl, parseNatJ_natToChars (-n).toNat rest hrest]
        show some (Json.num (-(((-n).toNat : Nat) : Int)), rest) =
          some (Json.num n, rest)
        rw [Int.toNat_of_nonneg (by omega : (0 : Int) ≤ -n), neg_neg]
      · obtain ⟨c, cs, hcs⟩ :=
          List.exists_cons_of_ne_nil (natToChars_ne_nil n.toNat)
        have hcd : c.isDigit = true :=
          natToChars_digits n.toNat c (hcs ▸ List.mem_cons_self c cs)
        obtain ⟨e1, e2, e3, e4, e5, e6, e7⟩ := isDigit_excl hcd
        rw [show serialize (.num n) ++ rest = c :: (cs ++ rest) by
          simp [serialize, intToChars, if_neg hn, hcs]]
        unfold parseVal
        rw [if_neg e1, if_neg e2, if_neg e3, if_neg e4, if_neg e5, if_neg e6,
          if_neg e7, if_pos hcd]
        rw [show c :: (cs ++ rest) = natToChars n.toNat ++ rest by
          simp [hcs]]
        rw [parseNatJ_natToChars n.toNat rest hrest]
        show some (Json.num ((n.toNat : Nat) : Int), rest) =
          some (Json.num n, rest)
        rw [Int.toNat_of_nonneg (by omega : (0 : Int) ≤ n)]
    | arr xs =>
      cases xs with
      | nil =>
        show parseVal (f + 1) ('[' :: (']' :: rest)) = _
        unfold parseVal
        rw [if_neg (by decide), if_neg (by decide), if_neg (by decide),
          if_neg (by decide), if_pos rfl, if_pos (by rfl)]
        rfl
      | cons x xs' =>
        obtain ⟨t, ht⟩ := serializeItems_cons x xs'
        obtain ⟨c, cs, hc1, hc2⟩ := serialize_head_ne_rsq x
        simp only [jsize] at hx
        rw [show serialize (.arr (x :: xs')) ++ rest =
            '[' :: (serializeItems (x :: xs') ++ ']' :: rest) by
          simp [serialize]]
        unfold parseVal
        rw [if_neg (by decide), if_neg (by decide), if_neg (by decide),
          if_neg (by decide), if_pos rfl]
        have hhead : ¬ (serializeItems (x :: xs') ++ ']' :: rest).headD ' ' = ']' := by
          rw [ht, hc1]
          simp only [List.cons_append, List.headD_cons]
          exact hc2
        rw [if_neg hhead]
        have hitems := parseItemsWith_ser (fun s2 => parseVal f s2) (x :: xs')
          ((serializeItems (x :: xs') ++ ']' :: rest).length + 1) rest
          (by simp)
          (by
            have hl := length_serializeItems (x :: xs')
            simp only [List.length_append, List.length_cons] at hl ⊢
            omega)
          (fun z hz r2 hr2 => ih z
            (by have := jsize_lt_of_mem hz; omega) r2 hr2)
        rw [hitems]
    | obj fs =>
      cases fs with
      | nil =>
        show parseVal (f + 1) ('{' :: ('}' :: rest)) = _
        unfold parseVal
        rw [if_neg (by decide), if_neg (by decide), if_neg (by decide),
          if_neg (by decide), if_neg (by decide), if_pos rfl, if_pos (by rfl)]
        rfl
      | cons kv fs' =>
        obtain ⟨k, v⟩ := kv
        obtain ⟨t, ht⟩ := serializeFields_head k v fs'
        simp only [jsize] at hx
        rw [show serialize (.obj ((k, v) :: fs')) ++ rest =
            '{' :: (serializeFields ((k, v) :: fs') ++ '}' :: rest) by
          simp [serialize]]
        unfold parseVal
        rw [if_neg (by decide), if_neg (by decide), if_neg (by decide),
          if_neg (by decide), if_neg (by decide), if_pos rfl]
        have hhead : ¬ (serializeFields ((k, v) :: fs') ++ '}' :: rest).headD ' ' = '}' := by
          rw [ht]
          simp only [List.cons_append, List.headD_cons]
          decide
        rw [if_neg hhead]
        have hflds := parseFieldsWith_ser (fun s2 => parseVal f s2)
          ((k, v) :: fs')
          ((serializeFields ((k, v) :: fs') ++ '}' :: rest).length + 1) rest
          (by simp)
          (by
            have hl := length_serializeFields ((k, v) :: fs')
            simp only [List.length_append, List.length_cons] at hl ⊢
            omega)
          (fun z hz r2 hr2 => by
            obtain ⟨zk, zv⟩ := z
            exact ih zv (by have := jsize_lt_of_mem_fields hz; omega) r2 hr2)
        rw [hflds]

mutual

theorem jsize_le_len (x : Json) : jsize x ≤ (serialize x).length := by
  cases x with
  | null => simp [serialize, jsize, jstr]
  | bool b => cases b <;> simp [serialize, jsize, jstr]
  | num n =>
    have h : serialize (.num n) ≠ [] := serialize_ne_nil (.num n)
    have := List.length_pos.mpr h
    simp only [jsize]
    omega
  | str s => simp [serialize, jsize, serStr]
  | arr xs =>
    have := jsizeList_le_len xs
    simp only [serialize, jsize, List.length_cons, List.length_append]
    simp only [List.length_cons, List.length_nil]
    omega
  | obj fs =>
    have := jsizeFields_le_len fs
    simp only [serialize, jsize, List.length_cons, List.length_append]
    simp only [List.length_cons, List.length_nil]
    omega
termination_by jsize x
decreasing_by
  all_goals simp [jsize]
  all_goals omega

theorem jsizeList_le_len (xs : List Json) :
    jsizeList xs ≤ (serializeItems xs).length + 1 := by
  cases xs with
  | nil => simp [serializeItems, jsizeList]
  | cons x xs' =>
    have h1 := jsize_le_len x
    cases xs' with
    | nil =>
      simp only [serializeItems, jsizeList]
      omega
    | cons y ys =>
      have h2 := jsizeList_le_len (y :: ys)
      simp only [serializeItems, jsizeList, List.length_append,
        List.length_cons] at *
      omega
termination_by jsizeList xs
decreasing_by
  all_goals simp [jsize, jsizeList]
  all_goals omega

theorem jsizeFields_le_len (fs : List (JStr × Json)) :
    jsizeFields fs ≤ (serializeFields fs).length + 1 := by
  cases fs with
  | nil => simp [serializeFields, jsizeFields]
  | cons kv fs' =>
    obtain ⟨k, v⟩ := kv
    have h1 := jsize_le_len v
    cases fs' with
    | nil =>
      simp only [serializeFields, jsizeFields, List.length_append,
        List.length_cons]
      omega
    | cons p ps =>
      have h2 := jsizeFields_le_len (p :: ps)
      simp only [serializeFields, jsizeFields, List.length_append,
        List.length_cons] at *
      omega
termination_by jsizeFields fs
decreasing_by
  all_goals simp [jsize, jsizeFields]
  all_goals omega

end

theorem jsonParse_serialize (x : Json) : jsonParse (serialize x) = some x := by
  unfold jsonParse
  have h := parseVal_serialize ((serialize x).length + 1) x
    (le_trans (jsize_le_len x) (by omega)) [] rfl
  rw [List.append_nil] at h
  rw [h]

/-! ### C1: envelope recovery -/

theorem scanGo_serialize_obj (fs : List (JStr × Json)) (suffix : JStr) :
    scanGo ⟨0, false, false⟩ (serialize (.obj fs) ++ suffix) [] =
      some (serialize (.obj fs)) := by
  obtain ⟨hf1, hf2⟩ := scan_serializeFields fs 1 (by omega)
  have hob : scanStep ⟨0, false, false⟩ '{' = ⟨1, false, false⟩ := by
    simp [scanStep]
  have hobr : scanRet ⟨0, false, false⟩ '{' = false := by simp [scanRet]
  have hret : scanRet ⟨1, false, false⟩ '}' = true := by simp [scanRet]
  rw [show serialize (.obj fs) ++ suffix =
      '{' :: (serializeFields fs ++ ('}' :: suffix)) by simp [serialize]]
  unfold scanGo
  rw [if_neg (by simp [hobr]), hob, scanGo_append _ _ _ _ hf1, hf2]
  unfold scanGo
  rw [if_pos hret]
  simp [serialize]

theorem extractJsonSpan_wrapped (pre suf : JStr) (fs : List (JStr × Json))
    (hp : '{' ∉ pre) :
    extractJsonSpan (bomChar :: (pre ++ (serialize (.obj fs) ++ suf))) =
      .ok (serialize (.obj fs)) := by
  have hstrip : stripBom (bomChar :: (pre ++ (serialize (.obj fs) ++ suf))) =
      pre ++ (serialize (.obj fs) ++ suf) := by
    simp [stripBom]
  have heq : serialize (.obj fs) ++ suf =
      '{' :: (serializeFields fs ++ ('}' :: suf)) := by simp [serialize]
  have hdw : ∀ c ∈ pre, decide (c ≠ '{') = true :=
    fun c hc => decide_eq_true (fun hceq => hp (hceq ▸ hc))
  have hdrop : (pre ++ (serialize (.obj fs) ++ suf)).dropWhile
      (fun c => c ≠ '{') = serialize (.obj fs) ++ suf := by
    rw [dropWhile_append_all pre (serialize (.obj fs) ++ suf) hdw, heq]
    simp [List.dropWhile_cons]
  have hgo : scanGo ⟨0, false, false⟩
      ('{' :: (serializeFields fs ++ ('}' :: suf))) [] =
      some (serialize (.obj fs)) := by
    rw [← heq]
    exact scanGo_serialize_obj fs suf
  unfold extractJsonSpan
  rw [hstrip, hdrop, heq]
  simp only [hgo]

/-- C1 (amended).  Envelope recovery round-trips: for every JSON object
`X = Json.obj fs` serialized as text (nested braces and brace characters
inside string literals included — the serializer escapes `"` and `\` and
the scanner never counts braces while in string context), wrapping the text
with a prefix containing no `{` character, an arbitrary suffix, and a
leading BOM character, `extractJson` returns exactly `X`.  (The claim's
"arbitrary prefix" fails: a prefix containing `{` shifts the scan start —
see the counterexample.) -/
theorem extractJson_roundtrip (pre suf : JStr) (fs : List (JStr × Json))
    (hp : '{' ∉ pre) :
    extractJson (bomChar :: (pre ++ (serialize (.obj fs) ++ suf))) =
      .ok (Json.obj fs) := by
  unfold extractJson
  rw [extractJsonSpan_wrapped pre suf fs hp]
  simp only [jsonParse_serialize]

/-- Witness for `extractJson_roundtrip` at a concrete wrapped object. -/
theorem extractJson_roundtrip_witness :
    '{' ∉ jstr "meta" ∧
      extractJson (bomChar :: (jstr "meta" ++
        (serialize (.obj [(jstr "a", Json.num 1)]) ++ jstr "tail"))) =
        .ok (Json.obj [(jstr "a", Json.num 1)]) :=
  ⟨by decide, extractJson_roundtrip _ _ _ (by decide)⟩

/-- The input of the C1 counterexample: the BOM, the one-character prefix
`"{"`, and the serialized object `(x7b "a":1 x7d)` with an empty suffix. -/
def c1CexInput : JStr :=
  bomChar :: (jstr "\x7b" ++ (serialize (.obj [(jstr "a", Json.num 1)]) ++ []))

/-- C1 counterexample: with the prefix `"{"` (allowed by the claim's
"arbitrary prefix"), `extractJson` throws "unbalanced braces" instead of
returning the wrapped object, so the claim as stated is false. -/
theorem extractJson_prefix_cex :
    extractJson c1CexInput =
      .error (jstr "Invalid JSON structure - unbalanced braces") ∧
    extractJson c1CexInput ≠ .ok (Json.obj [(jstr "a", Json.num 1)]) := by
  have he : extractJson c1CexInput =
      .error (jstr "Invalid JSON structure - unbalanced braces") := rfl
  exact ⟨he, fun h => Except.noConfusion (he.symm.trans h)⟩

/-! ### Domain records (types.ts), with runtime-faithful field types: the
TypeScript casts do not convert values, so fields declared `string` that
are filled from raw JSON are modeled as `Json`. -/

inductive AssigneeKind where
  | user
  | role
  | field
  | creator
  | previousAssignee
deriving DecidableEq

structure AssigneeInfo where
  type : AssigneeKind
  value : Json

inductive ConditionInfo where
  | expression (e : Option Json)
  | compare (field : JStr) (op : Json) (value : JStr)

structure StateInfo where
  name : Json
  isInitial : Option Json
  isFinal : Option Json

structure CommandInfo where
  type : JStr
  description : JStr
  details : List (String × Option Json)
  subCommands : Option (List CommandInfo)

structure TransitionInfo where
  fromState : Json
  toState : Json
  action : Json
  conditions : List ConditionInfo
  assignees : List AssigneeInfo
  commands : List CommandInfo

structure WorkflowInfo where
  tableName : Json
  states : List StateInfo
  transitions : List TransitionInfo

structure ColumnInfo where
  name : Json
  type : JStr
  required : Json
  unique : Json
  defaultValue : Option JStr
  description : Option Json

structure RelationInfo where
  targetTable : Json
  sourceColumn : Json
  targetColumn : Json
  type : Json

structure TableInfo where
  name : Json
  folder : JStr
  columns : List ColumnInfo
  relations : List RelationInfo
  workflow : Option WorkflowInfo

structure ButtonInfo where
  name : Json
  cell : JStr
  commands : List CommandInfo

structure FormulaInfo where
  cell : JStr
  formula : JStr

structure CellCommandInfo where
  cell : JStr
  event : JStr
  commands : List CommandInfo

structure PageInfo where
  name : Json
  type : JStr
  path : JStr
  buttons : List ButtonInfo
  formulas : List FormulaInfo
  cellCommands : List CellCommandInfo

structure ParameterInfo where
  name : Json
  type : JStr
  required : Json
  defaultValue : Option JStr

structure ServerCommandInfo where
  name : Json
  folder : JStr
  path : JStr
  commands : List JStr
  rawCommands : List CommandInfo
  parameters : List ParameterInfo

structure AnalysisSummary where
  tableCount : Nat
  pageCount : Nat
  workflowCount : Nat
  serverCommandCount : Nat
  totalColumns : Nat
  totalRelations : Nat

structure AnalysisResult where
  projectName : JStr
  tables : List TableInfo
  pages : List PageInfo
  workflows : List WorkflowInfo
  serverCommands : List ServerCommandInfo
  summary : AnalysisSummary

/-! ### Command tree interpreter (analyzer.ts lines 283-374 and 645-693) -/

/-- `'  '.repeat(depth)`. -/
def jsRepeat (s : JStr) (n : Nat) : JStr := (List.replicate n s).flatten

/-- `cmd['$type'] || ''` as consumed by the string methods that follow
(`.includes`, `.split`): property access on `null` and a truthy non-string
discriminator are TypeErrors. -/
def getTypeString (cmd : Json) : Except Unit JStr :=
  if jsIsNull cmd then .error ()
  else jsStrOrEmpty (jsGetT cmd "$type")

/-- `formatCondition` (lines 362-374). -/
def formatCondition (condition : Option Json) : JStr :=
  match condition with
  | none => jstr "(条件なし)"
  | some c =>
    if ¬ jsTruthy c then jstr "(条件なし)"
    else
      if jsTruthyO (jsGetT c "Expression") then jsToStringO (jsGetT c "Expression")
      else
        jsToString (jsOrJ (jsGetT c "LeftOperand") (.str [])) ++
          ' ' :: jsToString (jsOrJ (jsGetT c "Operator") (.str (jstr "=="))) ++
          ' ' :: jsToString (jsOrJ (jsGetT c "RightOperand") (.str []))

/-- `generateCommandDescription` (lines 335-360). -/
def generateCommandDescription (cmd : Json) (typeName : JStr) : JStr :=
  if typeName = jstr "ExecuteSqlCommand" then jstr "SQL実行"
  else if typeName = jstr "UpdateTableDataCommand" then
    jstr "テーブル更新: " ++ jsToString (jsOrJ (jsGetT cmd "TableName") (.str []))
  else if typeName = jstr "InsertTableDataCommand" then
    jstr "テーブル挿入: " ++ jsToString (jsOrJ (jsGetT cmd "TableName") (.str []))
  else if typeName = jstr "DeleteTableDataCommand" then
    jstr "テーブル削除: " ++ jsToString (jsOrJ (jsGetT cmd "TableName") (.str []))
  else if typeName = jstr "SendEmailCommand" then jstr "メール送信"
  else if typeName = jstr "ConditionCommand" then jstr "条件分岐"
  else if typeName = jstr "LoopCommand" then jstr "ループ処理"
  else if typeName = jstr "SetCellValueCommand" then jstr "セル値設定"
  else if typeName = jstr "NavigateCommand" then jstr "ページ遷移"
  else if typeName = jstr "CallServerCommandCommand" then jstr "サーバーコマンド呼出"
  else typeName

/-- `commands.map(parseCommand)` on a raw value: a TypeError unless the
value is an array (only arrays have `.map`). -/
def jsMapCommands (pc : Json → Except Unit CommandInfo) (v : Json) :
    Except Unit (List CommandInfo) :=
  match v with
  | .arr xs => xs.mapM pc
  | _ => .error ()

/-- `parseCommand` (lines 289-327), structurally fueled on the nesting
depth (callers pass the entry length, which always suffices). -/
def parseCommand : Nat → Json → Except Unit CommandInfo
  | 0, _ => .error ()
  | fuel + 1, cmd => do
    let cmdType ← getTypeString cmd
    let typeName := extractCommandTypeName cmdType
    let c0 : CommandInfo :=
      { type := typeName
        description := generateCommandDescription cmd typeName
        details := []
        subCommands := none }
    let c1 ←
      if typeName = jstr "ConditionCommand" ∨
          jstrIncludes cmdType (jstr "ConditionCommand") = true then do
        let tcs ← jsMapCommands (fun c => parseCommand fuel c)
          (jsOrJ (jsGetT cmd "TrueCommands") (.arr []))
        let fcs ←
          match jsGetT cmd "FalseCommands" with
          | some fv =>
            if jsTruthy fv then jsMapCommands (fun c => parseCommand fuel c) fv
            else pure []
          | none => pure []
        pure { c0 with
          description := jstr "IF " ++ formatCondition (jsGetT cmd "Condition")
          subCommands := some (tcs ++ fcs) }
      else pure c0
    let c2 ←
      if jstrIncludes cmdType (jstr "ExecuteSqlCommand") then do
        let sql ← jsStrOrEmpty (jsGetT cmd "SqlStatement")
        pure { c1 with
          details := [("sql", jsGetT cmd "SqlStatement")]
          description := jstr "SQL実行: " ++ sql.take 100 ++ jstr "..." }
      else pure c1
    let c3 :=
      if jstrIncludes cmdType (jstr "UpdateTableDataCommand") then
        { c2 with
          details := [("table", jsGetT cmd "TableName"),
            ("mappings", jsGetT cmd "ColumnMappings")]
          description := jstr "テーブル更新: " ++ jsToStringO (jsGetT cmd "TableName") }
      else c2
    let c4 :=
      if jstrIncludes cmdType (jstr "SendEmailCommand") then
        { c3 with
          details := [("to", jsGetT cmd "EmailTo"),
            ("subject", jsGetT cmd "EmailSubject")]
          description := jstr "メール送信: " ++
            jsToString (jsOrJ (jsGetT cmd "EmailSubject") (.str (jstr "(件名なし)"))) }
      else c3
    pure c4

/-- `parseCommands` (lines 285-287) over a raw array value. -/
def parseCommands (fuel : Nat) (v : Json) : Except Unit (List CommandInfo) :=
  jsMapCommands (fun c => parseCommand fuel c) v

/-- The flattener's recursion into a truthy branch value (the
`if (cmd.TrueCommands)` / `if (cmd.Commands)` guards followed by
`for (… of …)` at one more indent level). -/
def flattenBranch (g : List Json → Nat → Except Unit (List JStr))
    (v : Option Json) (depth : Nat) : Except Unit (List JStr) :=
  match v with
  | some tv =>
    if jsTruthy tv then do
      let cs ← jsForOf tv
      g cs (depth + 1)
    else pure []
  | none => pure []

/-- The flattener's `ELSE` part: emitted only when `cmd.FalseCommands` is
truthy and has positive `.length`, with the `ELSE` line at the current
indent and the branch body one level deeper. -/
def flattenElse (g : List Json → Nat → Except Unit (List JStr))
    (v : Option Json) (depth : Nat) : Except Unit (List JStr) :=
  match v with
  | some fv =>
    if jsTruthy fv ∧ 0 < (jsLength fv).getD 0 then do
      let fcs ← jsForOf fv
      let fl ← g fcs (depth + 1)
      pure ((jsRepeat (jstr "  ") depth ++ jstr "ELSE") :: fl)
    else pure []
  | none => pure []

/-- The body of `flattenCommandsToText`'s `for` loop for one command
(lines 648-691): the lines contributed by `cmd` at `depth`, with `g` the
recursion into sub-lists. -/
def flattenOne (g : List Json → Nat → Except Unit (List JStr))
    (cmd : Json) (depth : Nat) : Except Unit (List JStr) := do
  let indent := jsRepeat (jstr "  ") depth
  let cmdType ← getTypeString cmd
  if jstrIncludes cmdType (jstr "ConditionCommand") then do
    let tlines ← flattenBranch g (jsGetT cmd "TrueCommands") depth
    let elsePart ← flattenElse g (jsGetT cmd "FalseCommands") depth
    pure (((indent ++ jstr "IF " ++ formatCondition (jsGetT cmd "Condition")
        ++ jstr " THEN") :: tlines)
      ++ elsePart ++ [indent ++ jstr "END IF"])
  else if jstrIncludes cmdType (jstr "LoopCommand") then do
    let body ← flattenBranch g (jsGetT cmd "Commands") depth
    pure ((indent ++ jstr "LOOP") :: body ++ [indent ++ jstr "END LOOP"])
  else if jstrIncludes cmdType (jstr "ExecuteSqlCommand") then do
    let sql ← jsStrOrEmpty (jsGetT cmd "SqlStatement")
    pure ((indent ++ jstr "EXECUTE SQL:") ::
      (jsSplit '\n' sql).map (fun line => indent ++ jstr "  " ++ line))
  else if jstrIncludes cmdType (jstr "UpdateTableDataCommand") then
    pure [indent ++ jstr "UPDATE TABLE: " ++ jsToStringO (jsGetT cmd "TableName")]
  else if jstrIncludes cmdType (jstr "InsertTableDataCommand") then
    pure [indent ++ jstr "INSERT INTO TABLE: " ++ jsToStringO (jsGetT cmd "TableName")]
  else if jstrIncludes cmdType (jstr "DeleteTableDataCommand") then
    pure [indent ++ jstr "DELETE FROM TABLE: " ++ jsToStringO (jsGetT cmd "TableName")]
  else if jstrIncludes cmdType (jstr "SendEmailCommand") then
    pure [indent ++ jstr "SEND EMAIL TO: " ++ jsToStringO (jsGetT cmd "EmailTo"),
      indent ++ jstr "  SUBJECT: " ++ jsToStringO (jsGetT cmd "EmailSubject")]
  else if jstrIncludes cmdType (jstr "CallServerCommandCommand") then
    pure [indent ++ jstr "CALL SERVER COMMAND: " ++
      jsToString (jsOrJ (jsGetT cmd "ServerCommandName") (.str (jstr "(不明)")))]
  else
    pure [indent ++ extractCommandTypeName cmdType]

/-- `flattenCommandsToText` (lines 645-693), fueled like `parseCommand`.
The list recursion is the source's `for (const cmd of commands)` loop;
each iteration contributes `flattenOne`'s lines. -/
def flattenCommandsToText : Nat → List Json → Nat → Except Unit (List JStr)
  | _, [], _ => .ok []
  | 0, _ :: _, _ => .error ()
  | fuel + 1, cmd :: rest, depth => do
    let lines₁ ← flattenOne (flattenCommandsToText fuel) cmd depth
    let lines₂ ← flattenCommandsToText fuel rest depth
    pure (lines₁ ++ lines₂)

/-! ### Workflow reconstructor (analyzer.ts lines 201-280) -/

/-- `parseConditions` (lines 236-257). -/
def parseConditions (condition : Option Json) : Except Unit (List ConditionInfo) :=
  match condition with
  | none => .ok []
  | some c =>
    if ¬ jsTruthy c then .ok []
    else do
      let condType ← jsStrOrEmpty (jsGetT c "$type")
      if jstrIncludes condType (jstr "ExpressionCondition") then
        pure [ConditionInfo.expression (jsGetT c "Expression")]
      else if jstrIncludes condType (jstr "CompareCondition") then
        pure [ConditionInfo.compare
          (jsToString (jsOrJ (jsGetT c "LeftOperand") (.str [])))
          (jsOrJ (jsGetT c "Operator") (.str (jstr "==")))
          (jsToString (jsOrJ (jsGetT c "RightOperand") (.str [])))]
      else pure []

/-- One assignee node of `parseAssignees` (lines 262-280): substring match
on the discriminator, with the user/"不明" fallback. -/
def parseAssigneeNode (a : Json) : Except Unit AssigneeInfo :=
  if jsIsNull a then .error ()
  else do
    let aType ← jsStrOrEmpty (jsGetT a "$type")
    if jstrIncludes aType (jstr "UserAssignee") then
      pure ⟨.user, jsOrJ (jsGetT a "UserName") (.str [])⟩
    else if jstrIncludes aType (jstr "RoleAssignee") then
      pure ⟨.role, jsOrJ (jsGetT a "RoleName") (.str [])⟩
    else if jstrIncludes aType (jstr "FieldAssignee") then
      pure ⟨.field, jsOrJ (jsGetT a "FieldName") (.str [])⟩
    else if jstrIncludes aType (jstr "CreatorAssignee") then
      pure ⟨.creator, .str (jstr "作成者")⟩
    else if jstrIncludes aType (jstr "PreviousAssignee") then
      pure ⟨.previousAssignee, .str (jstr "前の担当者")⟩
    else pure ⟨.user, .str (jstr "不明")⟩

/-- `parseAssignees`: `assignees.map(...)` over the raw array value. -/
def parseAssignees (v : Json) : Except Unit (List AssigneeInfo) :=
  match v with
  | .arr xs => xs.mapM parseAssigneeNode
  | _ => .error ()

/-- One raw state node (lines 202-209): `isInitial` and `isFinal` carry
`IsInitialState` and `IsFinalState` verbatim — absent source fields stay
absent, no `false` default. -/
def stateOfJson (s : Json) : Except Unit StateInfo :=
  if jsIsNull s then .error ()
  else .ok { name := jsOrJ (jsGetT s "Name") (.str [])
             isInitial := jsGetT s "IsInitialState"
             isFinal := jsGetT s "IsFinalState" }

/-- One raw transition node (lines 211-228). -/
def transitionOfJson (fuel : Nat) (t : Json) : Except Unit TransitionInfo :=
  if jsIsNull t then .error ()
  else do
    let conds ← parseConditions (jsGetT t "Condition")
    let asgn ← parseAssignees (jsOrJ (jsGetT t "Assignees") (.arr []))
    let cmds ← parseCommands fuel (jsOrJ (jsGetT t "Commands") (.arr []))
    pure { fromState := jsOrJ (jsGetT t "SourceStateName") (.str [])
           toState := jsOrJ (jsGetT t "TargetStateName") (.str [])
           action := jsOrJ (jsGetT t "ActionName") (.str [])
           conditions := conds
           assignees := asgn
           commands := cmds }

/-- `parseWorkflow` (lines 201-231). -/
def parseWorkflow (fuel : Nat) (tableName : Json) (wfData : Json) :
    Except Unit WorkflowInfo :=
  if jsIsNull wfData then .error ()
  else do
    let sv ← jsArrOrEmpty (jsGetT wfData "States")
    let states ← sv.mapM stateOfJson
    let tv ← jsArrOrEmpty (jsGetT wfData "Transitions")
    let transitions ← tv.mapM (transitionOfJson fuel)
    pure { tableName := tableName, states := states, transitions := transitions }

/-! ### Table extractor (analyzer.ts lines 134-196) -/

/-- One column node (lines 151-158). -/
def columnOfJson (col : Json) : Except Unit ColumnInfo :=
  if jsIsNull col then .error ()
  else do
    let ty ←
      match jsGetT col "ColumnType" with
      | some (.str s) => .ok (extractColumnType (some s))
      | some v => if jsTruthy v then .error () else .ok (extractColumnType none)
      | none => .ok (extractColumnType none)
    pure { name := jsOrJ (jsGetT col "Name") (.str [])
           type := ty
           required := jsOrJ (jsGetT col "Required") (.bool false)
           unique := jsOrJ (jsGetT col "Unique") (.bool false)
           defaultValue := (jsGetT col "DefaultValue").map jsToString
           description := jsGetT col "Description" }

/-- One relation node (lines 160-165). -/
def relationOfJson (rel : Json) : Except Unit RelationInfo :=
  if jsIsNull rel then .error ()
  else .ok { targetTable := jsOrJ (jsGetT rel "TargetTableName") (.str [])
             sourceColumn := jsOrJ (jsGetT rel "SourceColumnName") (.str [])
             targetColumn := jsOrJ (jsGetT rel "TargetColumnName") (.str [])
             type := jsOrJ (jsGetT rel "RelationType") (.str (jstr "OneToMany")) }

/-- One archive entry: its path inside the zip and its decoded text. -/
structure ZEntry where
  entryName : JStr
  content : JStr

/-- Folder attribution (lines 148-149, 573-574): the second path segment
when the path has more than two segments. -/
def folderOf (entryName : JStr) : JStr :=
  let pathParts := jsSplit '/' entryName
  if 2 < pathParts.length then pathParts.getD 1 [] else []

/-- The body of `analyzeTables`'s per-entry `try` block (lines 144-179);
an `Except.error` is the caught-and-logged exception that skips the
entry. -/
def parseTableEntry (e : ZEntry) : Except Unit TableInfo := do
  let data ← (extractJson e.content).mapError (fun _ => ())
  let cols ← jsArrOrEmpty (jsGetT data "Columns")
  let columns ← cols.mapM columnOfJson
  let rels ← jsArrOrEmpty (jsGetT data "Relations")
  let relations ← rels.mapM relationOfJson
  let workflow ←
    match jsGetT data "BindingRelatedWorkflow" with
    | some wf =>
      if jsTruthy wf then do
        let w ← parseWorkflow (e.content.length + 1)
          (jsOrJ (jsGetT data "Name") (.str [])) wf
        pure (some w)
      else pure none
    | none => pure none
  pure { name := jsOrJ (jsGetT data "Name")
           (.str (pathBasename e.entryName (jstr ".json")))
         folder := folderOf e.entryName
         columns := columns
         relations := relations
         workflow := workflow }

/-- The entry filter of `analyzeTables` (lines 139-141). -/
def isTableEntry (e : ZEntry) : Bool :=
  (jstr "Tables/").isPrefixOf e.entryName &&
    (jstr ".json").isSuffixOf e.entryName

/-- `analyzeTables` (lines 134-186): filter the entries, parse each one,
and let the per-entry `try`/`catch` absorb failures (skip and continue). -/
def analyzeTables (entries : List ZEntry) : List TableInfo :=
  (entries.filter isTableEntry).filterMap (fun e => (parseTableEntry e).toOption)

/-! ### Page extractor (analyzer.ts lines 379-543) -/

/-- `Object.entries` of the attachment map: object fields in order; arrays
and strings enumerate their indices. -/
def jsEntries : Json → List (JStr × Json)
  | .obj fs => fs
  | .arr xs => ((List.range xs.length).zip xs).map (fun p => (natToChars p.1, p.2))
  | .str s => ((List.range s.length).zip s).map
      (fun p => (natToChars p.1, Json.str [p.2]))
  | _ => []

/-- `extractMenuItems` (lines 518-543) over an item list: each item with a
truthy `CommandList` of positive length yields one "メニュー: "-prefixed
button, and `SubItems` recurse. -/
def extractMenuItemsList : Nat → List Json → JStr → Except Unit (List ButtonInfo)
  | _, [], _ => .ok []
  | 0, _ :: _, _ => .error ()
  | fuel + 1, item :: restItems, baseCell => do
    let btns ←
      if jsIsNull item then .error ()
      else do
        let menuItem := item
        let b1 ←
          match jsGetT menuItem "CommandList" with
          | some clv =>
            if jsTruthy clv ∧ 0 < (jsLength clv).getD 0 then do
              let cmds ← parseCommands fuel clv
              let bname := Json.str (jstr "メニュー: " ++
                jsToString (jsOrJ (jsGetT menuItem "Text")
                  (.str (jstr "(名称なし)"))))
              pure [({ name := bname, cell := baseCell, commands := cmds } : ButtonInfo)]
            else pure []
          | none => pure []
        let b2 ←
          match jsGetT menuItem "SubItems" with
          | some sv =>
            if jsTruthy sv ∧ 0 < (jsLength sv).getD 0 then do
              let subs ← jsForOf sv
              extractMenuItemsList fuel subs baseCell
            else pure []
          | none => pure []
        pure (b1 ++ b2)
    let rest ← extractMenuItemsList fuel restItems baseCell
    pure (btns ++ rest)

/-- `extractMenuItems` on the raw `Items` value (its `for (… of …)`). -/
def extractMenuItems (fuel : Nat) (items : Json) (baseCell : JStr) :
    Except Unit (List ButtonInfo) := do
  let xs ← jsForOf items
  extractMenuItemsList fuel xs baseCell

/-- One `AttachInfos` entry of `extractPageElements` (lines 446-510):
the buttons, formulas and cell commands this cell contributes. -/
def pageCellElements (fuel : Nat) (cellAddress : JStr) (cellData : Json) :
    Except Unit (List ButtonInfo × List FormulaInfo × List CellCommandInfo) :=
  if jsIsNull cellData then .error ()
  else do
    let cell := cellData
    let formulas :=
      if jsTruthyO (jsGetT cell "Formula") then
        [({ cell := cellAddress
            formula := jsToStringO (jsGetT cell "Formula") } : FormulaInfo)]
      else []
    let res1 ←
      match jsGetT cell "CellType" with
      | some ct =>
        if jsTruthy ct then do
          let typeStr ← jsStrOrEmpty (jsGetT ct "$type")
          let menuButtons ←
            if jstrIncludes typeStr (jstr "MenuCellType") ∨
                jstrIncludes typeStr (jstr "ForguncyMenuCellType") = true then
              extractMenuItems fuel (jsOrJ (jsGetT ct "Items") (.arr []))
                cellAddress
            else pure []
          let buttonBtns ←
            if jstrIncludes typeStr (jstr "ButtonCellType") then do
              let text := jsOrJ (jsGetT ct "Text")
                (jsOrJ (jsGetT ct "Content") (.str (jstr "ボタン")))
              let commandList := jsOrJ (jsGetT ct "CommandList") (.arr [])
              if 0 < (jsLength commandList).getD 0 then do
                let cmds ← parseCommands fuel commandList
                pure [({ name := text, cell := cellAddress, commands := cmds } : ButtonInfo)]
              else pure []
            else pure []
          let cellCmds ←
            (let commandList := jsOrJ (jsGetT ct "CommandList") (.arr [])
             if 0 < (jsLength commandList).getD 0 ∧
                 ¬ jstrIncludes typeStr (jstr "ButtonCellType") = true then do
               let cmds ← parseCommands fuel commandList
               pure [({ cell := cellAddress, event := jstr "Click", commands := cmds } : CellCommandInfo)]
             else pure [])
          pure (menuButtons ++ buttonBtns, cellCmds)
        else pure ([], [])
      | none => pure ([], [])
    let res2 ←
      match jsGetT cell "Commands" with
      | some cv =>
        if jsTruthy cv then do
          let buttonText := jsOrJ (jsGetT cell "ButtonText") (.str [])
          if jsTruthy buttonText then do
            let cmds ← parseCommands fuel cv
            pure ([({ name := buttonText, cell := cellAddress, commands := cmds } : ButtonInfo)], [])
          else do
            let cmds ← parseCommands fuel cv
            pure (([] : List ButtonInfo),
              [({ cell := cellAddress, event := jstr "Click", commands := cmds } : CellCommandInfo)])
        else pure ([], [])
      | none => pure ([], [])
    pure (res1.1 ++ res2.1, formulas, res1.2 ++ res2.2)

/-- `extractPageElements` (lines 434-513): iterate the attachment map and
concatenate each cell's contributions in entry order. -/
def extractPageElements (fuel : Nat) (data : Json) :
    Except Unit (List ButtonInfo × List FormulaInfo × List CellCommandInfo) := do
  let attachInfos := jsOrJ (jsGetT data "AttachInfos") (.obj [])
  let results ← (jsEntries attachInfos).mapM
    (fun p => pageCellElements fuel p.1 p.2)
  pure (results.foldr
    (fun r acc => (r.1 ++ acc.1, r.2.1 ++ acc.2.1, r.2.2 ++ acc.2.2))
    ([], [], []))

/-- The per-entry `try` body shared by the two page loops (lines 390-425). -/
def parsePageEntry (pageType : JStr) (e : ZEntry) : Except Unit PageInfo := do
  let data ← (extractJson e.content).mapError (fun _ => ())
  let elems ← extractPageElements (e.content.length + 1) data
  pure { name := jsOrJ (jsGetT data "Name")
           (.str (pathBasename e.entryName (jstr ".json")))
         type := pageType
         path := e.entryName
         buttons := elems.1
         formulas := elems.2.1
         cellCommands := elems.2.2 }

def isPageEntry (e : ZEntry) : Bool :=
  (jstr "Pages/").isPrefixOf e.entryName &&
    (jstr ".json").isSuffixOf e.entryName

def isMasterPageEntry (e : ZEntry) : Bool :=
  (jstr "MasterPages/").isPrefixOf e.entryName &&
    (jstr ".json").isSuffixOf e.entryName

/-- `analyzePages` (lines 379-428): ordinary pages first, then master
pages, each with per-entry failure absorption. -/
def analyzePages (entries : List ZEntry) : List PageInfo :=
  (entries.filter isPageEntry).filterMap
      (fun e => (parsePageEntry (jstr "page") e).toOption) ++
    (entries.filter isMasterPageEntry).filterMap
      (fun e => (parsePageEntry (jstr "masterPage") e).toOption)

/-! ### Workflow aggregation and server commands (lines 548-693) -/

/-- `extractWorkflows` (lines 548-552): the bound workflows of the tables
that have one, in table order. -/
def extractWorkflows (tables : List TableInfo) : List WorkflowInfo :=
  (tables.filter (fun t => t.workflow.isSome)).filterMap (fun t => t.workflow)

/-- `inferParameterType` (lines 626-640). -/
def inferParameterType (validationInfo : Option Json) : JStr :=
  match validationInfo with
  | none => jstr "Text"
  | some vi =>
    if ¬ jsTruthy vi then jstr "Text"
    else
      match jsGetT vi "NumberType" with
      | some (.num 4) => jstr "DateTime"
      | some (.num 1) => jstr "Integer"
      | some (.num 2) => jstr "Decimal"
      | _ => jstr "Text"

/-- One trigger-shape parameter (lines 585-592): always `required`. -/
def triggerParamOfJson (p : Json) : Except Unit ParameterInfo :=
  if jsIsNull p then .error ()
  else .ok { name := jsOrJ (jsGetT p "Name") (.str [])
             type := inferParameterType (jsGetT p "DataValidationInfo")
             required := .bool true
             defaultValue := none }

/-- One legacy-shape parameter (lines 597-604). -/
def legacyParamOfJson (p : Json) : Except Unit ParameterInfo :=
  if jsIsNull p then .error ()
  else do
    let ty ←
      match jsGetT p "Type" with
      | some (.str s) => .ok (extractColumnType (some s))
      | some v => if jsTruthy v then .error () else .ok (extractColumnType none)
      | none => .ok (extractColumnType none)
    pure { name := jsOrJ (jsGetT p "Name") (.str [])
           type := ty
           required := jsOrJ (jsGetT p "Required") (.bool false)
           defaultValue := (jsGetT p "DefaultValue").map jsToString }

/-- `v[0]` on a value with positive `.length`. -/
def jsIndex0 : Json → Option Json
  | .arr (x :: _) => some x
  | .str (c :: _) => some (.str [c])
  | _ => none

/-- The parameter extraction of `analyzeServerCommands` (lines 579-605):
the current trigger shape first; the legacy `Parameters` list is consulted
only when that yields zero parameters and `data.Parameters` is truthy. -/
def extractParameters (data : Json) : Except Unit (List ParameterInfo) := do
  let triggers := jsOrJ (jsGetT data "Triggers") (.arr [])
  let fromTriggers ←
    if 0 < (jsLength triggers).getD 0 then
      match jsIndex0 triggers with
      | some .null => .error ()
      | some ft => do
        let triggerParams := jsOrJ (jsGetT ft "Parameters") (.arr [])
        let ps ← jsForOf triggerParams
        ps.mapM triggerParamOfJson
      | none => pure []
    else pure []
  if fromTriggers.length = 0 ∧ jsTruthyO (jsGetT data "Parameters") then
    match jsGetT data "Parameters" with
    | some pv => do
      let ps ← jsForOf pv
      ps.mapM legacyParamOfJson
    | none => pure []
  else pure fromTriggers

/-- `flattenCommandsToText(v, 0)` on the raw `data.Commands || []` value:
its `for (… of …)` iteration. -/
def flattenTop (fuel : Nat) (v : Json) : Except Unit (List JStr) := do
  let xs ← jsForOf v
  flattenCommandsToText fuel xs 0

/-- The per-entry `try` body of `analyzeServerCommands` (lines 569-614). -/
def parseServerCommandEntry (e : ZEntry) : Except Unit ServerCommandInfo := do
  let data ← (extractJson e.content).mapError (fun _ => ())
  let rawCommands ← parseCommands (e.content.length + 1)
    (jsOrJ (jsGetT data "Commands") (.arr []))
  let commands ← flattenTop (e.content.length + 1)
    (jsOrJ (jsGetT data "Commands") (.arr []))
  let parameters ← extractParameters data
  pure { name := jsOrJ (jsGetT data "Name")
           (.str (pathBasename e.entryName (jstr ".json")))
         folder := folderOf e.entryName
         path := e.entryName
         commands := commands
         rawCommands := rawCommands
         parameters := parameters }

def isServerCommandEntry (e : ZEntry) : Bool :=
  (jstr "ServerCommands/").isPrefixOf e.entryName &&
    (jstr ".json").isSuffixOf e.entryName

/-- `analyzeServerCommands` (lines 558-621). -/
def analyzeServerCommands (entries : List ZEntry) : List ServerCommandInfo :=
  (entries.filter isServerCommandEntry).filterMap
    (fun e => (parseServerCommandEntry e).toOption)

/-- `analyzeProject` (lines 35-78): compose the extractors and compute the
summary (progress reporting dropped; the zip handle becomes the entry
list). -/
def analyzeProject (filePath : JStr) (entries : List ZEntry) : AnalysisResult :=
  let projectName := pathBasename filePath (jstr ".fgcp")
  let tables := analyzeTables entries
  let pages := analyzePages entries
  let workflows := extractWorkflows tables
  let serverCommands := analyzeServerCommands entries
  { projectName := projectName
    tables := tables
    pages := pages
    workflows := workflows
    serverCommands := serverCommands
    summary :=
      { tableCount := tables.length
        pageCount := pages.length
        workflowCount := workflows.length
        serverCommandCount := serverCommands.length
        totalColumns := (tables.map (fun t => t.columns.length)).sum
        totalRelations := (tables.map (fun t => t.relations.length)).sum } }

/-! ### Helper lemmas for reasoning about the `Except` pipelines -/

theorem jsIsNull_eq_false {a : Json} (h : a ≠ Json.null) : jsIsNull a = false := by
  cases a <;> first | exact absurd rfl h | rfl

theorem jsGetT_some_not_null {v : Json} {k : String} {x : Json}
    (h : jsGetT v k = some x) : jsIsNull v = false := by
  cases v <;> simp [jsGetT, jsIsNull] at *

theorem jsGetT_some_obj {v : Json} {k : String} {x : Json}
    (h : jsGetT v k = some x) : ∃ fs, v = Json.obj fs := by
  cases v <;> first
    | exact ⟨_, rfl⟩
    | exact absurd h (by simp [jsGetT])

theorem ok_bind {α β : Type} (a : α) (f : α → Except Unit β) :
    ((Except.ok a : Except Unit α) >>= f) = f a := rfl

theorem pure_bind_except {α β : Type} (a : α) (f : α → Except Unit β) :
    ((pure a : Except Unit α) >>= f) = f a := rfl

theorem except_bind_ok {α β : Type} (e : Except Unit α) (f : α → Except Unit β)
    (r : β) : (e >>= f) = .ok r ↔ ∃ a, e = .ok a ∧ f a = .ok r := by
  cases e with
  | ok a =>
    rw [ok_bind]
    constructor
    · intro h; exact ⟨a, rfl, h⟩
    · rintro ⟨a', ha, hf⟩
      cases ha
      exact hf
  | error u =>
    constructor
    · intro h; exact Except.noConfusion h
    · rintro ⟨a', ha, hf⟩
      exact Except.noConfusion ha

theorem mapM_ok_length {α β : Type} :
    ∀ (xs : List α) (f : α → Except Unit β) (ys : List β),
    xs.mapM f = .ok ys → ys.length = xs.length := by
  intro xs
  induction xs with
  | nil =>
    intro f ys h
    have h2 : (Except.ok [] : Except Unit (List β)) = .ok ys := h
    injection h2 with h3
    subst h3
    rfl
  | cons x xs' ih =>
    intro f ys h
    rw [List.mapM_cons] at h
    rcases hfx : f x with e | b
    · rw [hfx] at h
      exact Except.noConfusion h
    · rw [hfx, ok_bind] at h
      rcases hrest : xs'.mapM f with e | bs
      · rw [hrest] at h
        exact Except.noConfusion h
      · rw [hrest, ok_bind] at h
        have : b :: bs = ys := by
          have := h
          simp [pure, Except.pure] at this
          exact this
        rw [← this]
        simp [ih f bs hrest]

/-! ### C9: the assignee fallback -/

/-- C9.  Assignee fallback: an assignee node (a non-`null` value) whose
discriminator read `a['$type'] || ''` succeeds (absent or empty both give
`""`) and contains none of the five recognized substrings is mapped by
`parseAssignees` to the `user` kind with the literal placeholder `"不明"`
("unknown"), and the parse does not fail. -/
theorem parseAssignees_unknown_fallback (a : Json) (ty : JStr)
    (hnn : a ≠ Json.null)
    (hty : jsStrOrEmpty (jsGetT a "$type") = .ok ty)
    (h1 : jstrIncludes ty (jstr "UserAssignee") = false)
    (h2 : jstrIncludes ty (jstr "RoleAssignee") = false)
    (h3 : jstrIncludes ty (jstr "FieldAssignee") = false)
    (h4 : jstrIncludes ty (jstr "CreatorAssignee") = false)
    (h5 : jstrIncludes ty (jstr "PreviousAssignee") = false) :
    parseAssigneeNode a = .ok ⟨AssigneeKind.user, Json.str (jstr "不明")⟩ ∧
    parseAssignees (Json.arr [a]) =
      .ok [⟨AssigneeKind.user, Json.str (jstr "不明")⟩] := by
  have hn := jsIsNull_eq_false hnn
  have hnode : parseAssigneeNode a = .ok ⟨AssigneeKind.user, Json.str (jstr "不明")⟩ := by
    simp only [parseAssigneeNode, hn, Bool.false_eq_true, if_false, hty, ok_bind,
      h1, h2, h3, h4, h5, if_false]
    rfl
  refine ⟨hnode, ?_⟩
  simp only [parseAssignees, List.mapM_cons, List.mapM_nil, hnode, ok_bind]
  rfl

/-- Witness for `parseAssignees_unknown_fallback` on a node with an
unrecognized discriminator. -/
theorem parseAssignees_unknown_fallback_witness :
    (Json.obj [(jstr "$type", Json.str (jstr "Some.OtherAssignee"))] ≠ Json.null) ∧
    parseAssigneeNode (Json.obj [(jstr "$type", Json.str (jstr "Some.OtherAssignee"))]) =
      .ok ⟨AssigneeKind.user, Json.str (jstr "不明")⟩ :=
  ⟨fun h => Json.noConfusion h,
    (parseAssignees_unknown_fallback
      (Json.obj [(jstr "$type", Json.str (jstr "Some.OtherAssignee"))])
      (jstr "Some.OtherAssignee")
      (fun h => Json.noConfusion h) rfl rfl rfl rfl rfl rfl).1⟩

/-! ### C8: workflow state flags -/

/-- C8 (amended).  For every state record produced by `parseWorkflow`, the
`isInitial` and `isFinal` fields carry the raw `IsInitialState` and
`IsFinalState` values verbatim; when those source fields are absent the
record fields are left absent (`undefined`), not defaulted to `false`. -/
theorem parseWorkflow_state_flags (fuel : Nat) (t wf : Json)
    (w : WorkflowInfo) (ss : List Json)
    (hok : parseWorkflow fuel t wf = .ok w)
    (hss : jsGetT wf "States" = some (Json.arr ss)) :
    ss.mapM stateOfJson = .ok w.states ∧
    ∀ s ∈ ss, ∀ st : StateInfo, stateOfJson s = .ok st →
      st.isInitial = jsGetT s "IsInitialState" ∧
      st.isFinal = jsGetT s "IsFinalState" ∧
      (jsGetT s "IsInitialState" = none → st.isInitial = none) ∧
      (jsGetT s "IsFinalState" = none → st.isFinal = none) := by
  constructor
  · have hn := jsGetT_some_not_null hss
    rw [parseWorkflow] at hok
    rw [hn] at hok
    simp only [Bool.false_eq_true, if_false] at hok
    rw [show jsArrOrEmpty (jsGetT wf "States") = .ok ss by
      rw [hss]; rfl] at hok
    rw [ok_bind] at hok
    rw [except_bind_ok] at hok
    obtain ⟨states, hstates, hok⟩ := hok
    rw [except_bind_ok] at hok
    obtain ⟨tv, htv, hok⟩ := hok
    rw [except_bind_ok] at hok
    obtain ⟨transitions, htrans, hok⟩ := hok
    have hw : w.states = states := by
      have : (⟨t, states, transitions⟩ : WorkflowInfo) = w := by
        simpa [pure, Except.pure] using hok
      rw [← this]
    rw [hw]
    exact hstates
  · intro s _ st hst
    rw [stateOfJson] at hst
    by_cases hn : jsIsNull s = true
    · rw [if_pos hn] at hst
      exact Except.noConfusion hst
    · rw [if_neg hn] at hst
      have hrec : (⟨jsOrJ (jsGetT s "Name") (.str []), jsGetT s "IsInitialState",
          jsGetT s "IsFinalState"⟩ : StateInfo) = st := by
        simpa using hst
      rw [← hrec]
      exact ⟨rfl, rfl, fun h => h, fun h => h⟩

/-- Witness for `parseWorkflow_state_flags` on a one-state workflow. -/
theorem parseWorkflow_state_flags_witness :
    parseWorkflow 1 (Json.str (jstr "T"))
        (Json.obj [(jstr "States", Json.arr [Json.obj []])]) =
      .ok ⟨Json.str (jstr "T"), [⟨Json.str [], none, none⟩], []⟩ ∧
    [Json.obj []].mapM stateOfJson = .ok [⟨Json.str [], none, none⟩] :=
  ⟨rfl,
    have h := parseWorkflow_state_flags 1 (Json.str (jstr "T"))
      (Json.obj [(jstr "States", Json.arr [Json.obj []])])
      ⟨Json.str (jstr "T"), [⟨Json.str [], none, none⟩], []⟩
      [Json.obj []] rfl rfl
    h.1⟩

/-- C8 counterexample: a raw state node with both flag fields absent
produces a state whose `isInitial` is absent (`none`), not the boolean
`false` the claim requires. -/
theorem parseWorkflow_state_default_cex :
    parseWorkflow 1 (Json.str (jstr "T"))
        (Json.obj [(jstr "States", Json.arr [Json.obj []])]) =
      .ok ⟨Json.str (jstr "T"), [⟨Json.str [], none, none⟩], []⟩ ∧
    (⟨Json.str [], none, none⟩ : StateInfo).isInitial ≠ some (Json.bool false) ∧
    (⟨Json.str [], none, none⟩ : StateInfo).isFinal ≠ some (Json.bool false) :=
  ⟨rfl, fun h => Option.noConfusion h, fun h => Option.noConfusion h⟩

/-! ### C10: the summary invariant -/

/-- C10.  For every `AnalysisResult` produced by `analyzeProject`, the
workflow count never exceeds the table count: the workflow list is the
sub-sequence of tables carrying a bound workflow. -/
theorem analyzeProject_workflowCount_le (filePath : JStr)
    (entries : List ZEntry) :
    (analyzeProject filePath entries).summary.workflowCount ≤
      (analyzeProject filePath entries).summary.tableCount := by
  show (extractWorkflows (analyzeTables entries)).length ≤
    (analyzeTables entries).length
  unfold extractWorkflows
  exact le_trans (List.length_filterMap_le _ _) (List.length_filter_le _ _)

/-! ### C5: unrecognized command kinds in the flattener -/

theorem error_bind {α β : Type} (e : Unit) (f : α → Except Unit β) :
    ((Except.error e : Except Unit α) >>= f) = .error e := rfl

/-- C5.  Totality on unrecognized commands: a command node whose
discriminator read `cmd['$type'] || ''` succeeds (missing and empty both
give `""`) and matches none of the flattener's recognized kinds
contributes exactly one output line — the indented raw kind label,
`"Unknown"` when the discriminator is missing or empty — and the
flattening of the sibling commands continues unchanged (`<$>` keeps the
siblings' outcome, error or not). -/
theorem flattenCommandsToText_unknown (fuel depth : Nat) (cmd : Json)
    (rest : List Json) (ty : JStr)
    (hty : getTypeString cmd = .ok ty)
    (h1 : jstrIncludes ty (jstr "ConditionCommand") = false)
    (h2 : jstrIncludes ty (jstr "LoopCommand") = false)
    (h3 : jstrIncludes ty (jstr "ExecuteSqlCommand") = false)
    (h4 : jstrIncludes ty (jstr "UpdateTableDataCommand") = false)
    (h5 : jstrIncludes ty (jstr "InsertTableDataCommand") = false)
    (h6 : jstrIncludes ty (jstr "DeleteTableDataCommand") = false)
    (h7 : jstrIncludes ty (jstr "SendEmailCommand") = false)
    (h8 : jstrIncludes ty (jstr "CallServerCommandCommand") = false) :
    flattenCommandsToText (fuel + 1) (cmd :: rest) depth =
      (fun ls => (jsRepeat (jstr "  ") depth ++ extractCommandTypeName ty) :: ls)
        <$> flattenCommandsToText fuel rest depth ∧
    (ty = [] → extractCommandTypeName ty = jstr "Unknown") := by
  constructor
  · simp only [flattenCommandsToText, flattenOne, hty, ok_bind, h1, h2, h3,
      h4, h5, h6, h7, h8, Bool.false_eq_true, if_false, pure_bind_except]
    cases hres : flattenCommandsToText fuel rest depth with
    | ok ls =>
      simp [hres, ok_bind, Functor.map, Except.map, pure, Except.pure]
    | error e => simp [hres, error_bind, Functor.map, Except.map]
  · intro h
    subst h
    rfl

/-- Witness for `flattenCommandsToText_unknown` on a node with an
unrecognized discriminator, with one sibling whose discriminator is
absent. -/
theorem flattenCommandsToText_unknown_witness :
    getTypeString (Json.obj [(jstr "$type", Json.str (jstr "My.FooCommand"))]) =
      .ok (jstr "My.FooCommand") ∧
    flattenCommandsToText 2
        [Json.obj [(jstr "$type", Json.str (jstr "My.FooCommand"))], Json.obj []] 0 =
      (fun ls => (jsRepeat (jstr "  ") 0 ++
          extractCommandTypeName (jstr "My.FooCommand")) :: ls)
        <$> flattenCommandsToText 1 [Json.obj []] 0 ∧
    flattenCommandsToText 2
        [Json.obj [(jstr "$type", Json.str (jstr "My.FooCommand"))], Json.obj []] 0 =
      .ok [jstr "FooCommand", jstr "Unknown"] :=
  ⟨rfl,
    (flattenCommandsToText_unknown 1 0
      (Json.obj [(jstr "$type", Json.str (jstr "My.FooCommand"))])
      [Json.obj []] (jstr "My.FooCommand")
      rfl rfl rfl rfl rfl rfl rfl rfl rfl).1,
    rfl⟩

/-! ### C2: per-entry failure isolation in `analyzeTables` -/

theorem length_filterMap_all {α β : Type} :
    ∀ (l : List α) (f : α → Option β),
    (∀ e ∈ l, ∃ t, f e = some t) → (l.filterMap f).length = l.length := by
  intro l
  induction l with
  | nil => intro f _; rfl
  | cons x xs ih =>
    intro f h
    obtain ⟨t, ht⟩ := h x (List.mem_cons_self x xs)
    rw [List.filterMap_cons, ht]
    simp only [List.length_cons]
    rw [ih f (fun e he => h e (List.mem_cons_of_mem x he))]

/-- C2 (amended).  Per-entry failure isolation: in a batch of table
entries in which the entry `eK` fails to parse (for instance because no
balanced JSON object can be recovered from its content) and every other
entry parses to a table, `analyzeTables` returns exactly the other
entries' tables, in archive order with `eK` omitted — `N - 1` of them —
and no exception escapes (`analyzeTables` is total).  (The original
claim's hypothesis — only that `eK`'s content is unrecoverable — is not
enough: an entry whose JSON is recoverable can still throw in the field
mapping and be skipped too; see the counterexample.) -/
theorem analyzeTables_isolation (pre post : List ZEntry) (eK : ZEntry)
    (h1 : ∀ e ∈ pre ++ post, isTableEntry e = true)
    (h2 : isTableEntry eK = true)
    (h3 : parseTableEntry eK = .error ())
    (h4 : ∀ e ∈ pre ++ post, ∃ t, parseTableEntry e = .ok t) :
    analyzeTables (pre ++ eK :: post) =
      analyzeTables pre ++ analyzeTables post ∧
    (analyzeTables (pre ++ eK :: post)).length = pre.length + post.length := by
  have hfp : pre.filter isTableEntry = pre :=
    List.filter_eq_self.mpr (fun e he => h1 e (List.mem_append_left _ he))
  have hfq : post.filter isTableEntry = post :=
    List.filter_eq_self.mpr (fun e he => h1 e (List.mem_append_right _ he))
  have hmain : analyzeTables (pre ++ eK :: post) =
      analyzeTables pre ++ analyzeTables post := by
    unfold analyzeTables
    rw [List.filter_append, hfp, List.filter_cons_of_pos h2, hfq,
      List.filterMap_append, List.filterMap_cons]
    simp [h3, Except.toOption]
  refine ⟨hmain, ?_⟩
  rw [hmain, List.length_append]
  unfold analyzeTables
  rw [hfp, hfq,
    length_filterMap_all pre _ (fun e he => by
      obtain ⟨t, ht⟩ := h4 e (List.mem_append_left _ he)
      exact ⟨t, by simp [ht, Except.toOption]⟩),
    length_filterMap_all post _ (fun e he => by
      obtain ⟨t, ht⟩ := h4 e (List.mem_append_right _ he)
      exact ⟨t, by simp [ht, Except.toOption]⟩)]

def c2good : ZEntry := ⟨jstr "Tables/A.json", jstr "\x7b\x22Name\x22:\x22T\x22\x7d"⟩

def c2bad : ZEntry := ⟨jstr "Tables/B.json", jstr "\x7b"⟩

def c2ugly : ZEntry := ⟨jstr "Tables/C.json", jstr "\x7b\x22Columns\x22:5\x7d"⟩

/-- Witness for `analyzeTables_isolation`: a good entry, then the
unbalanced entry, then another good entry. -/
theorem analyzeTables_isolation_witness :
    parseTableEntry c2bad = .error () ∧
    analyzeTables [c2good, c2bad, c2good] =
      analyzeTables [c2good] ++ analyzeTables [c2good] ∧
    (analyzeTables [c2good, c2bad, c2good]).length = 2 :=
  ⟨rfl,
    (analyzeTables_isolation [c2good] [c2good] c2bad
      (by intro e he; fin_cases he <;> rfl) rfl rfl
      (by intro e he; fin_cases he <;> exact ⟨_, rfl⟩)).1,
    by
      have h := (analyzeTables_isolation [c2good] [c2good] c2bad
        (by intro e he; fin_cases he <;> rfl) rfl rfl
        (by intro e he; fin_cases he <;> exact ⟨_, rfl⟩)).2
      simpa using h⟩

/-- C2 counterexample: three `Tables/` entries of which exactly one
(`c2bad`) has unrecoverable content — the claim then demands `3 - 1 = 2`
tables — but `c2ugly`'s content recovers the balanced object
`("Columns": 5)` whose field mapping then throws (`(5).map` is a
TypeError), so the batch yields only one table. -/
theorem analyzeTables_isolation_cex :
    extractJson (jstr "\x7b") =
      .error (jstr "Invalid JSON structure - unbalanced braces") ∧
    extractJson (jstr "\x7b\x22Columns\x22:5\x7d") =
      .ok (Json.obj [(jstr "Columns", Json.num 5)]) ∧
    parseTableEntry c2ugly = .error () ∧
    analyzeTables [c2good, c2bad, c2ugly] =
      [⟨Json.str (jstr "T"), [], [], [], none⟩] ∧
    (analyzeTables [c2good, c2bad, c2ugly]).length ≠ 3 - 1 :=
  ⟨rfl, rfl, rfl, rfl, by decide⟩

/-! ### C6: server-command parameter source fallback -/

/-- C6.  Parameter-source fallback: for a server-command JSON whose
`Triggers[0].Parameters` array is non-empty (and maps to parameters), the
extracted parameter list is the trigger-derived one — whatever the legacy
`Parameters` field holds, empty or absent included — because the legacy
shape is consulted only when the trigger shape yields zero parameters;
and the record produced by `analyzeServerCommands` for the entry carries
exactly that list. -/
theorem serverCommand_param_fallback (e : ZEntry) (data : Json)
    (t0 : Json) (ts ps : List Json) (prms : List ParameterInfo)
    (hd : extractJson e.content = .ok data)
    (htr : jsGetT data "Triggers" = some (Json.arr (t0 :: ts)))
    (hp : jsGetT t0 "Parameters" = some (Json.arr ps))
    (hne : ps ≠ [])
    (hmap : ps.mapM triggerParamOfJson = .ok prms) :
    extractParameters data = .ok prms ∧ prms ≠ [] ∧
    ∀ info : ServerCommandInfo, parseServerCommandEntry e = .ok info →
      info.parameters = prms := by
  have hlen : prms.length = ps.length := mapM_ok_length ps _ prms hmap
  have hprms : prms ≠ [] := by
    intro h
    apply hne
    rw [h] at hlen
    exact List.length_eq_zero.mp hlen.symm
  have hext : extractParameters data = .ok prms := by
    obtain ⟨fs, rfl⟩ := jsGetT_some_obj hp
    unfold extractParameters
    rw [htr]
    simp only [jsOrJ, jsTruthy, if_true, jsLength, Option.getD,
      List.length_cons, jsIndex0]
    rw [if_pos (Nat.succ_pos ts.length)]
    rw [hp]
    simp only [jsOrJ, jsTruthy, if_true, jsForOf, ok_bind]
    rw [hmap, ok_bind]
    rw [if_neg (fun hco => hprms (List.length_eq_zero.mp hco.1))]
    rfl
  refine ⟨hext, hprms, ?_⟩
  intro info hok
  unfold parseServerCommandEntry at hok
  rw [hd] at hok
  rw [except_bind_ok] at hok
  obtain ⟨data2, hdata2, hok⟩ := hok
  have hdata3 : (Except.ok data : Except Unit Json) = .ok data2 := hdata2
  injection hdata3 with hdata4
  subst hdata4
  rw [except_bind_ok] at hok
  obtain ⟨rawCommands, _, hok⟩ := hok
  rw [except_bind_ok] at hok
  obtain ⟨commands, _, hok⟩ := hok
  rw [except_bind_ok] at hok
  obtain ⟨parameters, hparams, hok⟩ := hok
  rw [hext] at hparams
  injection hparams with hparams
  have : ({ name := jsOrJ (jsGetT data "Name")
              (.str (pathBasename e.entryName (jstr ".json")))
            folder := folderOf e.entryName
            path := e.entryName
            commands := commands
            rawCommands := rawCommands
            parameters := parameters } : ServerCommandInfo) = info := by
    simpa [pure, Except.pure] using hok
  rw [← this, ← hparams]

def c6entry : ZEntry :=
  ⟨jstr "ServerCommands/SC.json",
    jstr "\x7b\x22Name\x22:\x22SC\x22,\x22Parameters\x22:[],\x22Triggers\x22:[\x7b\x22Parameters\x22:[\x7b\x22Name\x22:\x22p1\x22\x7d]\x7d]\x7d"⟩

/-- Witness for `serverCommand_param_fallback`: a server command with an
empty legacy `Parameters` array and one trigger parameter `p1`. -/
theorem serverCommand_param_fallback_witness :
    extractParameters (Json.obj [(jstr "Name", Json.str (jstr "SC")),
        (jstr "Parameters", Json.arr []),
        (jstr "Triggers", Json.arr [Json.obj [(jstr "Parameters",
          Json.arr [Json.obj [(jstr "Name", Json.str (jstr "p1"))]])]])]) =
      .ok [⟨Json.str (jstr "p1"), jstr "Text", Json.bool true, none⟩] :=
  (serverCommand_param_fallback c6entry
    (Json.obj [(jstr "Name", Json.str (jstr "SC")),
      (jstr "Parameters", Json.arr []),
      (jstr "Triggers", Json.arr [Json.obj [(jstr "Parameters",
        Json.arr [Json.obj [(jstr "Name", Json.str (jstr "p1"))]])]])])
    (Json.obj [(jstr "Parameters",
      Json.arr [Json.obj [(jstr "Name", Json.str (jstr "p1"))]])])
    [] [Json.obj [(jstr "Name", Json.str (jstr "p1"))]]
    [⟨Json.str (jstr "p1"), jstr "Text", Json.bool true, none⟩]
    rfl rfl rfl (fun h => List.noConfusion h) rfl).1

/-! ### C3: ELSE placement in the command flattener -/

theorem pure_eq_ok {α : Type} (x : α) : (pure x : Except Unit α) = .ok x := rfl

theorem jsRepeat_add (s : JStr) (a b : Nat) :
    jsRepeat s (a + b) = jsRepeat s a ++ jsRepeat s b := by
  unfold jsRepeat
  rw [List.replicate_add, List.flatten_append]

theorem jsRepeat_one (s : JStr) : jsRepeat s 1 = s := by
  unfold jsRepeat
  rw [List.replicate_succ, List.replicate_zero, List.flatten_cons,
    List.flatten_nil, List.append_nil]

/-- A line carrying at least one extra indentation level differs from the
`ELSE` line of the outer level. -/
theorem indent_line_ne_else (d e : Nat) (t : JStr) (h : d < e) :
    jsRepeat (jstr "  ") e ++ t ≠ jsRepeat (jstr "  ") d ++ jstr "ELSE" := by
  intro heq
  obtain ⟨k, hk⟩ : ∃ k, e = d + (k + 1) := ⟨e - d - 1, by omega⟩
  subst hk
  rw [jsRepeat_add, List.append_assoc] at heq
  have h2 := List.append_cancel_left heq
  rw [Nat.add_comm k 1, jsRepeat_add, jsRepeat_one, List.append_assoc] at h2
  have h3 : (' ' : Char) = 'E' := congrArg (fun u => List.headD u ' ') h2
  exact absurd h3 (by decide)

theorem indLine1 (d : Nat) (a : JStr) :
    ∃ e t, d ≤ e ∧ jsRepeat (jstr "  ") d ++ a = jsRepeat (jstr "  ") e ++ t :=
  ⟨d, a, le_refl d, rfl⟩

theorem indLine2 (d : Nat) (a b : JStr) :
    ∃ e t, d ≤ e ∧
      (jsRepeat (jstr "  ") d ++ a) ++ b = jsRepeat (jstr "  ") e ++ t :=
  ⟨d, a ++ b, le_refl d, by simp [List.append_assoc]⟩

theorem indLine3 (d : Nat) (a b c : JStr) :
    ∃ e t, d ≤ e ∧
      ((jsRepeat (jstr "  ") d ++ a) ++ b) ++ c = jsRepeat (jstr "  ") e ++ t :=
  ⟨d, (a ++ b) ++ c, le_refl d, by simp [List.append_assoc]⟩

theorem indent_mono (d d0 : Nat) (l : JStr) (hdd : d ≤ d0)
    (h : ∃ e t, d0 ≤ e ∧ l = jsRepeat (jstr "  ") e ++ t) :
    ∃ e t, d ≤ e ∧ l = jsRepeat (jstr "  ") e ++ t := by
  obtain ⟨e, t, he, hl⟩ := h
  exact ⟨e, t, le_trans hdd he, hl⟩

/-- Lines from a recursed-into branch carry at least one more
indentation level. -/
theorem flattenBranch_line_indent
    (g : List Json → Nat → Except Unit (List JStr))
    (hg : ∀ (cs : List Json) (d0 : Nat) (ls0 : List JStr), g cs d0 = .ok ls0 →
      ∀ x ∈ ls0, ∃ e t, d0 ≤ e ∧ x = jsRepeat (jstr "  ") e ++ t)
    (v : Option Json) (d : Nat) (ls : List JStr)
    (h : flattenBranch g v d = .ok ls) :
    ∀ l ∈ ls, ∃ e t, d + 1 ≤ e ∧ l = jsRepeat (jstr "  ") e ++ t := by
  intro l hl
  cases v with
  | none =>
    have h2 : (Except.ok [] : Except Unit (List JStr)) = .ok ls := h
    injection h2 with h2
    subst h2
    cases hl
  | some tv =>
    simp only [flattenBranch] at h
    by_cases htt : jsTruthy tv = true
    · rw [if_pos htt] at h
      rw [except_bind_ok] at h
      obtain ⟨cs, _, h⟩ := h
      exact hg cs (d + 1) ls h l hl
    · rw [if_neg htt] at h
      have h2 : (Except.ok [] : Except Unit (List JStr)) = .ok ls := h
      injection h2 with h2
      subst h2
      cases hl

/-- Lines from the `ELSE` part: either the `ELSE` line itself at the
current indent, or a branch line one level deeper. -/
theorem flattenElse_line_indent
    (g : List Json → Nat → Except Unit (List JStr))
    (hg : ∀ (cs : List Json) (d0 : Nat) (ls0 : List JStr), g cs d0 = .ok ls0 →
      ∀ x ∈ ls0, ∃ e t, d0 ≤ e ∧ x = jsRepeat (jstr "  ") e ++ t)
    (v : Option Json) (d : Nat) (ls : List JStr)
    (h : flattenElse g v d = .ok ls) :
    ∀ l ∈ ls, l = jsRepeat (jstr "  ") d ++ jstr "ELSE" ∨
      ∃ e t, d + 1 ≤ e ∧ l = jsRepeat (jstr "  ") e ++ t := by
  intro l hl
  cases v with
  | none =>
    have h2 : (Except.ok [] : Except Unit (List JStr)) = .ok ls := h
    injection h2 with h2
    subst h2
    cases hl
  | some fv =>
    simp only [flattenElse] at h
    by_cases hfc : jsTruthy fv = true ∧ 0 < (jsLength fv).getD 0
    · rw [if_pos hfc] at h
      rw [except_bind_ok] at h
      obtain ⟨fcs, _, h⟩ := h
      rw [except_bind_ok] at h
      obtain ⟨fl, hfl, h⟩ := h
      rw [pure_eq_ok] at h
      injection h with h
      subst h
      rcases List.mem_cons.mp hl with h2 | h2
      · exact Or.inl h2
      · exact Or.inr (hg fcs (d + 1) fl hfl l h2)
    · rw [if_neg hfc] at h
      have h2 : (Except.ok [] : Except Unit (List JStr)) = .ok ls := h
      injection h2 with h2
      subst h2
      cases hl

/-- Every line one command contributes at depth `d` starts with at least
`d` levels of indentation. -/
theorem flattenOne_line_indent
    (g : List Json → Nat → Except Unit (List JStr))
    (hg : ∀ (cs : List Json) (d0 : Nat) (ls0 : List JStr), g cs d0 = .ok ls0 →
      ∀ x ∈ ls0, ∃ e t, d0 ≤ e ∧ x = jsRepeat (jstr "  ") e ++ t)
    (cmd : Json) (d : Nat) (l1 : List JStr)
    (h : flattenOne g cmd d = .ok l1) :
    ∀ l ∈ l1, ∃ e t, d ≤ e ∧ l = jsRepeat (jstr "  ") e ++ t := by
  intro l hl
  simp only [flattenOne] at h
  rw [except_bind_ok] at h
  obtain ⟨ty, hty, h⟩ := h
  by_cases hc1 : jstrIncludes ty (jstr "ConditionCommand") = true
  · rw [if_pos hc1] at h
    rw [except_bind_ok] at h
    obtain ⟨tl, htl, h⟩ := h
    rw [except_bind_ok] at h
    obtain ⟨ep, hep, h⟩ := h
    rw [pure_eq_ok] at h
    injection h with h
    subst h
    rcases List.mem_append.mp hl with h2 | h2
    · rcases List.mem_append.mp h2 with h3 | h3
      · rcases List.mem_cons.mp h3 with h4 | h4
        · rw [h4]; exact indLine3 d _ _ _
        · exact indent_mono d (d + 1) l (Nat.le_succ d)
            (flattenBranch_line_indent g hg _ d tl htl l h4)
      · rcases flattenElse_line_indent g hg _ d ep hep l h3 with h4 | h4
        · rw [h4]; exact indLine1 d _
        · exact indent_mono d (d + 1) l (Nat.le_succ d) h4
    · rw [List.mem_singleton.mp h2]; exact indLine1 d _
  · rw [if_neg hc1] at h
    by_cases hc2 : jstrIncludes ty (jstr "LoopCommand") = true
    · rw [if_pos hc2] at h
      rw [except_bind_ok] at h
      obtain ⟨body, hb, h⟩ := h
      rw [pure_eq_ok] at h
      injection h with h
      subst h
      rcases List.mem_cons.mp hl with h2 | h2
      · rw [h2]; exact indLine1 d _
      · rcases List.mem_append.mp h2 with h3 | h3
        · exact indent_mono d (d + 1) l (Nat.le_succ d)
            (flattenBranch_line_indent g hg _ d body hb l h3)
        · rw [List.mem_singleton.mp h3]; exact indLine1 d _
    · rw [if_neg hc2] at h
      by_cases hc3 : jstrIncludes ty (jstr "ExecuteSqlCommand") = true
      · rw [if_pos hc3] at h
        rw [except_bind_ok] at h
        obtain ⟨sql, _, h⟩ := h
        rw [pure_eq_ok] at h
        injection h with h
        subst h
        rcases List.mem_cons.mp hl with h2 | h2
        · rw [h2]; exact indLine1 d _
        · obtain ⟨line, _, h3⟩ := List.mem_map.mp h2
          rw [← h3]; exact indLine2 d _ _
      · rw [if_neg hc3] at h
        by_cases hc4 : jstrIncludes ty (jstr "UpdateTableDataCommand") = true
        · rw [if_pos hc4] at h
          rw [pure_eq_ok] at h
          injection h with h
          subst h
          rw [List.mem_singleton.mp hl]; exact indLine2 d _ _
        · rw [if_neg hc4] at h
          by_cases hc5 : jstrIncludes ty (jstr "InsertTableDataCommand") = true
          · rw [if_pos hc5] at h
            rw [pure_eq_ok] at h
            injection h with h
            subst h
            rw [List.mem_singleton.mp hl]; exact indLine2 d _ _
          · rw [if_neg hc5] at h
            by_cases hc6 : jstrIncludes ty (jstr "DeleteTableDataCommand") = true
            · rw [if_pos hc6] at h
              rw [pure_eq_ok] at h
              injection h with h
              subst h
              rw [List.mem_singleton.mp hl]; exact indLine2 d _ _
            · rw [if_neg hc6] at h
              by_cases hc7 : jstrIncludes ty (jstr "SendEmailCommand") = true
              · rw [if_pos hc7] at h
                rw [pure_eq_ok] at h
                injection h with h
                subst h
                rcases List.mem_cons.mp hl with h2 | h2
                · rw [h2]; exact indLine2 d _ _
                · rw [List.mem_singleton.mp h2]; exact indLine2 d _ _
              · rw [if_neg hc7] at h
                by_cases hc8 : jstrIncludes ty (jstr "CallServerCommandCommand") = true
                · rw [if_pos hc8] at h
                  rw [pure_eq_ok] at h
                  injection h with h
                  subst h
                  rw [List.mem_singleton.mp hl]; exact indLine2 d _ _
                · rw [if_neg hc8] at h
                  rw [pure_eq_ok] at h
                  injection h with h
                  subst h
                  rw [List.mem_singleton.mp hl]; exact indLine1 d _

/-- Every line the flattener emits below depth `d` starts with at least
`d` levels of indentation. -/
theorem flatten_line_indent :
    ∀ (fuel : Nat) (cmds : List Json) (d : Nat) (ls : List JStr),
    flattenCommandsToText fuel cmds d = .ok ls →
    ∀ l ∈ ls, ∃ e t, d ≤ e ∧ l = jsRepeat (jstr "  ") e ++ t := by
  intro fuel
  induction fuel with
  | zero =>
    intro cmds d ls h l hl
    cases cmds with
    | nil =>
      have h2 : (Except.ok [] : Except Unit (List JStr)) = .ok ls := h
      injection h2 with h2
      subst h2
      cases hl
    | cons c cs => exact Except.noConfusion h
  | succ fuel ih =>
    intro cmds d ls h l hl
    cases cmds with
    | nil =>
      have h2 : (Except.ok [] : Except Unit (List JStr)) = .ok ls := h
      injection h2 with h2
      subst h2
      cases hl
    | cons cmd rest =>
      simp only [flattenCommandsToText] at h
      rw [except_bind_ok] at h
      obtain ⟨l1, hl1, h⟩ := h
      rw [except_bind_ok] at h
      obtain ⟨l2, hl2, h⟩ := h
      rw [pure_eq_ok] at h
      injection h with h
      subst h
      rcases List.mem_append.mp hl with hmem | hmem
      · exact flattenOne_line_indent (flattenCommandsToText fuel) ih cmd d l1 hl1 l hmem
      · exact ih rest d l2 hl2 l hmem

/-- C3.  ELSE placement: a Condition command with a truthy non-empty
false-branch contributes, ahead of the flattening of its siblings, the
segment made of the `IF … THEN` line, the flattened true branch at one
more indent level, a single `ELSE` line at the `IF` line's indentation,
the flattened false branch at one more indent level, and the closing
`END IF` line at the same indentation; the `ELSE` line occurs exactly
once in that segment, and one indent level is two spaces. -/
theorem flattenCommandsToText_else (fuel depth : Nat) (cmd : Json)
    (rest : List Json) (ty : JStr) (tv fv : Json) (tcs fcs : List Json)
    (tlines flines : List JStr)
    (hty : getTypeString cmd = .ok ty)
    (hcc : jstrIncludes ty (jstr "ConditionCommand") = true)
    (htv : jsGetT cmd "TrueCommands" = some tv)
    (htt : jsTruthy tv = true)
    (htf : jsForOf tv = .ok tcs)
    (htl : flattenCommandsToText fuel tcs (depth + 1) = .ok tlines)
    (hfv : jsGetT cmd "FalseCommands" = some fv)
    (hft : jsTruthy fv = true)
    (hfn : 0 < (jsLength fv).getD 0)
    (hff : jsForOf fv = .ok fcs)
    (hfl : flattenCommandsToText fuel fcs (depth + 1) = .ok flines) :
    (flattenCommandsToText (fuel + 1) (cmd :: rest) depth =
      (fun ls => (jsRepeat (jstr "  ") depth ++ jstr "IF " ++
          formatCondition (jsGetT cmd "Condition") ++ jstr " THEN") ::
        tlines ++
        (jsRepeat (jstr "  ") depth ++ jstr "ELSE") :: flines ++
        (jsRepeat (jstr "  ") depth ++ jstr "END IF") :: ls)
        <$> flattenCommandsToText fuel rest depth) ∧
    List.count (jsRepeat (jstr "  ") depth ++ jstr "ELSE")
      ((jsRepeat (jstr "  ") depth ++ jstr "IF " ++
          formatCondition (jsGetT cmd "Condition") ++ jstr " THEN") ::
        tlines ++
        (jsRepeat (jstr "  ") depth ++ jstr "ELSE") :: flines ++
        [jsRepeat (jstr "  ") depth ++ jstr "END IF"]) = 1 ∧
    jsRepeat (jstr "  ") (depth + 1) = jsRepeat (jstr "  ") depth ++ jstr "  " := by
  refine ⟨?_, ?_, ?_⟩
  · simp only [flattenCommandsToText, flattenOne, hty, ok_bind]
    rw [if_pos hcc]
    simp only [flattenBranch, flattenElse, htv, hfv]
    rw [if_pos htt, if_pos (And.intro hft hfn)]
    simp only [htf, ok_bind, htl, hff, hfl, pure_bind_except]
    cases hres : flattenCommandsToText fuel rest depth with
    | error e => simp [hres, error_bind, Functor.map, Except.map]
    | ok ls =>
      simp [hres, ok_bind, Functor.map, Except.map, pure, Except.pure,
        List.append_assoc]
  · have hmt : (jsRepeat (jstr "  ") depth ++ jstr "ELSE") ∉ tlines := by
      intro hmem
      obtain ⟨e, t, he, heq⟩ :=
        flatten_line_indent fuel tcs (depth + 1) tlines htl _ hmem
      exact indent_line_ne_else depth e t he heq.symm
    have hmf : (jsRepeat (jstr "  ") depth ++ jstr "ELSE") ∉ flines := by
      intro hmem
      obtain ⟨e, t, he, heq⟩ :=
        flatten_line_indent fuel fcs (depth + 1) flines hfl _ hmem
      exact indent_line_ne_else depth e t he heq.symm
    have hne1 : jsRepeat (jstr "  ") depth ++ jstr "IF " ++
        formatCondition (jsGetT cmd "Condition") ++ jstr " THEN" ≠
        jsRepeat (jstr "  ") depth ++ jstr "ELSE" := by
      intro heq
      rw [List.append_assoc, List.append_assoc] at heq
      have h2 := List.append_cancel_left heq
      have h3 : ('I' : Char) = 'E' := congrArg (fun u => List.headD u ' ') h2
      exact absurd h3 (by decide)
    have hne2 : jsRepeat (jstr "  ") depth ++ jstr "END IF" ≠
        jsRepeat (jstr "  ") depth ++ jstr "ELSE" := by
      intro heq
      have h2 := List.append_cancel_left heq
      have h3 : ('N' : Char) = 'L' :=
        congrArg (fun u => List.headD (List.tail u) ' ') h2
      exact absurd h3 (by decide)
    simp only [List.count_cons, List.count_append, List.count_nil,
      List.count_eq_zero.mpr hmt, List.count_eq_zero.mpr hmf, beq_iff_eq]
    rw [if_neg hne1, if_neg hne2]
    simp
  · rw [jsRepeat_add, jsRepeat_one]

def c3cmd : Json :=
  Json.obj [(jstr "$type", Json.str (jstr "Forguncy.ConditionCommand")),
    (jstr "TrueCommands", Json.arr [Json.obj []]),
    (jstr "FalseCommands", Json.arr [Json.obj []])]

/-- Witness for `flattenCommandsToText_else` on a condition command with
a one-command true branch and a one-command false branch. -/
theorem flattenCommandsToText_else_witness :
    (flattenCommandsToText 2 [c3cmd] 0 =
      (fun ls => (jsRepeat (jstr "  ") 0 ++ jstr "IF " ++
          formatCondition (jsGetT c3cmd "Condition") ++ jstr " THEN") ::
        [jstr "  " ++ jstr "Unknown"] ++
        (jsRepeat (jstr "  ") 0 ++ jstr "ELSE") :: [jstr "  " ++ jstr "Unknown"] ++
        (jsRepeat (jstr "  ") 0 ++ jstr "END IF") :: ls)
        <$> flattenCommandsToText 1 [] 0) ∧
    List.count (jsRepeat (jstr "  ") 0 ++ jstr "ELSE")
      ((jsRepeat (jstr "  ") 0 ++ jstr "IF " ++
          formatCondition (jsGetT c3cmd "Condition") ++ jstr " THEN") ::
        [jstr "  " ++ jstr "Unknown"] ++
        (jsRepeat (jstr "  ") 0 ++ jstr "ELSE") :: [jstr "  " ++ jstr "Unknown"] ++
        [jsRepeat (jstr "  ") 0 ++ jstr "END IF"]) = 1 ∧
    jsRepeat (jstr "  ") (0 + 1) = jsRepeat (jstr "  ") 0 ++ jstr "  " :=
  flattenCommandsToText_else 1 0 c3cmd []
    (jstr "Forguncy.ConditionCommand")
    (Json.arr [Json.obj []]) (Json.arr [Json.obj []])
    [Json.obj []] [Json.obj []]
    [jstr "  " ++ jstr "Unknown"] [jstr "  " ++ jstr "Unknown"]
    rfl rfl rfl rfl rfl rfl rfl rfl (by decide) rfl rfl

/-! ### C7: buttons from nested menu-item trees -/

/-- Whether a menu item carries a truthy, non-empty attached command
list (the source's `menuItem.CommandList && menuItem.CommandList.length > 0`). -/
def menuHasCommands (item : Json) : Bool :=
  match jsGetT item "CommandList" with
  | some clv => jsTruthy clv && decide (0 < (jsLength clv).getD 0)
  | none => false

/-- Whether a menu item carries a truthy, non-empty sub-item list. -/
def menuHasSub (item : Json) : Bool :=
  match jsGetT item "SubItems" with
  | some sv => jsTruthy sv && decide (0 < (jsLength sv).getD 0)
  | none => false

/-- The raw sub-item nodes of a menu item. -/
def menuSubNodes (item : Json) : List Json :=
  match jsGetT item "SubItems" with
  | some sv => (jsForOf sv).toOption.getD []
  | none => []

/-- Modelled from the claim's words, not from the source: the menu LEAF
items (no sub-items) of the tree that carry a non-empty attached command
list, in depth-first order. -/
def menuLeafItems : Nat → List Json → List Json
  | _, [] => []
  | 0, _ :: _ => []
  | fuel + 1, item :: rest =>
    (if menuHasCommands item && !menuHasSub item then [item] else []) ++
    (if menuHasSub item then menuLeafItems fuel (menuSubNodes item) else []) ++
    menuLeafItems fuel rest

/-- C7 (amended).  A menu item with a truthy non-empty `CommandList`
yields its own button — labeled with the `メニュー: ` prefix on its
`Text` — even when it also has truthy non-empty `SubItems`: the
recursion then appends the buttons of the whole sub-tree and of the
sibling items.  Button-yielding items are all the items with a non-empty
attached command list, not only the leaves. -/
theorem extractMenuItems_inner_button (fuel : Nat) (item : Json)
    (rest : List Json) (cell : JStr) (clv sv : Json) (subs : List Json)
    (cmds : List CommandInfo) (subBtns : List ButtonInfo)
    (hnn : jsIsNull item = false)
    (hcl : jsGetT item "CommandList" = some clv)
    (hclt : jsTruthy clv = true)
    (hcln : 0 < (jsLength clv).getD 0)
    (hcmds : parseCommands fuel clv = .ok cmds)
    (hsi : jsGetT item "SubItems" = some sv)
    (hsit : jsTruthy sv = true)
    (hsin : 0 < (jsLength sv).getD 0)
    (hsub : jsForOf sv = .ok subs)
    (hsubB : extractMenuItemsList fuel subs cell = .ok subBtns) :
    extractMenuItemsList (fuel + 1) (item :: rest) cell =
      (fun bs =>
        ({ name := Json.str (jstr "メニュー: " ++
             jsToString (jsOrJ (jsGetT item "Text") (.str (jstr "(名称なし)"))))
           cell := cell
           commands := cmds } : ButtonInfo) :: (subBtns ++ bs))
        <$> extractMenuItemsList fuel rest cell := by
  simp only [extractMenuItemsList, hnn, Bool.false_eq_true, if_false, hcl, hsi]
  rw [if_pos (And.intro hclt hcln)]
  simp only [hcmds, ok_bind, pure_bind_except]
  rw [if_pos (And.intro hsit hsin)]
  simp only [hsub, ok_bind, hsubB, pure_bind_except]
  cases hres : extractMenuItemsList fuel rest cell with
  | error e => simp [hres, error_bind, Functor.map, Except.map]
  | ok bs =>
    simp [hres, ok_bind, Functor.map, Except.map, pure, Except.pure,
      List.append_assoc]

def c7leaf : Json :=
  Json.obj [(jstr "Text", Json.str (jstr "L")),
    (jstr "CommandList", Json.arr [Json.obj []])]

def c7parent : Json :=
  Json.obj [(jstr "Text", Json.str (jstr "P")),
    (jstr "CommandList", Json.arr [Json.obj []]),
    (jstr "SubItems", Json.arr [c7leaf])]

/-- Witness for `extractMenuItems_inner_button`: an inner menu item with
one command and one sub-item that itself carries a command. -/
theorem extractMenuItems_inner_button_witness :
    extractMenuItemsList 3 [c7parent] (jstr "A1") =
      (fun bs =>
        ({ name := Json.str (jstr "メニュー: " ++
             jsToString (jsOrJ (jsGetT c7parent "Text") (.str (jstr "(名称なし)"))))
           cell := jstr "A1"
           commands := [⟨jstr "Unknown", jstr "Unknown", [], none⟩] } : ButtonInfo) ::
          ([⟨Json.str (jstr "メニュー: L"), jstr "A1",
              [⟨jstr "Unknown", jstr "Unknown", [], none⟩]⟩] ++ bs))
        <$> extractMenuItemsList 2 [] (jstr "A1") :=
  extractMenuItems_inner_button 2 c7parent [] (jstr "A1")
    (Json.arr [Json.obj []]) (Json.arr [c7leaf]) [c7leaf]
    [⟨jstr "Unknown", jstr "Unknown", [], none⟩]
    [⟨Json.str (jstr "メニュー: L"), jstr "A1",
      [⟨jstr "Unknown", jstr "Unknown", [], none⟩]⟩]
    rfl rfl rfl (by decide) rfl rfl rfl (by decide) rfl rfl

/-- C7 counterexample: in a two-level menu tree whose root item carries
both a command list and a sub-item (which itself carries a command
list), extraction yields TWO buttons — one of them for the non-leaf
root — while the tree has exactly one leaf item with commands, so the
buttons are not in bijection with such leaves. -/
theorem extractMenuItems_leaf_cex :
    extractMenuItems 3 (Json.arr [c7parent]) (jstr "A1") =
      .ok [⟨Json.str (jstr "メニュー: P"), jstr "A1",
              [⟨jstr "Unknown", jstr "Unknown", [], none⟩]⟩,
           ⟨Json.str (jstr "メニュー: L"), jstr "A1",
              [⟨jstr "Unknown", jstr "Unknown", [], none⟩]⟩] ∧
    menuLeafItems 3 [c7parent] = [c7leaf] ∧
    ([⟨Json.str (jstr "メニュー: P"), jstr "A1",
        [⟨jstr "Unknown", jstr "Unknown", [], none⟩]⟩,
      ⟨Json.str (jstr "メニュー: L"), jstr "A1",
        [⟨jstr "Unknown", jstr "Unknown", [], none⟩]⟩] : List ButtonInfo).length ≠
      (menuLeafItems 3 [c7parent]).length :=
  ⟨rfl, rfl, by decide⟩
